import Mathlib

/-!
Verification of the incremental conference-discovery and deduplication
pipeline of the finance-conferences repository.

The Python sources (src/scraper.py, main.py, deepseek.py) are shallowly
embedded below.  Python strings are modelled as Lean `String` / `List Char`
with ASCII semantics for `str.lower` and the regex classes involved
(`[^a-z0-9\s]`, `\s`); all the titles, locations and dates handled by the
pipeline are ASCII, and every claim under verification is stated at that
level of abstraction.
-/

/-- Model of membership in the Python regex class `\s` (ASCII part), which is
also the set stripped by `str.strip()` on the data in this pipeline. -/
def isPySpace (c : Char) : Bool :=
  c == ' ' || c == '\t' || c == '\n' || c == '\r' || c == '\x0b' || c == '\x0c'

/-- Characters kept by `re.sub(r'[^a-z0-9\s]', '', ...)`:
lower-case letters, digits, whitespace. -/
def allowedChar (c : Char) : Bool :=
  decide ('a' ≤ c ∧ c ≤ 'z') || decide ('0' ≤ c ∧ c ≤ '9') || isPySpace c

/-- ASCII model of Python `str.lower`, applied characterwise. -/
def pyLower (c : Char) : Char := c.toLower

/-- Model of `re.sub(r'\s+', ' ', s)`: every maximal whitespace run is
replaced by a single space (the run's last whitespace char emits `' '`,
earlier ones are dropped). -/
def collapseWs : List Char → List Char
  | [] => []
  | [c] => [if isPySpace c then ' ' else c]
  | c :: d :: rest =>
    if isPySpace c && isPySpace d then collapseWs (d :: rest)
    else (if isPySpace c then ' ' else c) :: collapseWs (d :: rest)

/-- Drop leading whitespace (left half of Python `str.strip()`). -/
def stripLeft (l : List Char) : List Char := l.dropWhile isPySpace

/-- Drop trailing whitespace (right half of Python `str.strip()`). -/
def stripRight : List Char → List Char
  | [] => []
  | c :: t =>
    match stripRight t with
    | [] => if isPySpace c then [] else [c]
    | r => c :: r

/-- Model of Python `str.strip()`. -/
def stripChars (l : List Char) : List Char := stripRight (stripLeft l)

/-- Model of Python `str.strip()` on `String`. -/
def pyStripS (s : String) : String := String.mk (stripChars s.data)

/-- Characterwise `str.lower` on `String` (ASCII model). -/
def pyLowerS (s : String) : String := String.mk (s.data.map pyLower)

/-- `_normalize_for_comparison` from src/scraper.py (and the identical
`normalize_text` closure in main.py): lower-case, strip all characters
outside `[a-z0-9\s]`, collapse whitespace runs to single spaces, strip. -/
def normalizeChars (l : List Char) : List Char :=
  stripChars (collapseWs ((l.map pyLower).filter allowedChar))

/-- `_normalize_for_comparison` on `String`. -/
def normalizeForComparison (s : String) : String := String.mk (normalizeChars s.data)

/-- `_create_conference_signature` (src/scraper.py lines 147-152 and main.py
lines 263-277): `normalize(title) + "|" + normalize(location) + "|" +
normalize(dates)`. -/
def createConferenceSignature (title location dates : String) : String :=
  normalizeForComparison title ++ "|" ++ normalizeForComparison location
    ++ "|" ++ normalizeForComparison dates

/-- One elementary difference that the spec calls "differing only in letter
case, punctuation, or repeated whitespace": a characterwise case change, an
insertion of one punctuation character (one removed by the normalizer's
filter), or an insertion of one whitespace character adjacent to an existing
whitespace character. -/
inductive TrivialDiff : List Char → List Char → Prop where
  | caseChange (s t : List Char) :
      s.map pyLower = t.map pyLower → TrivialDiff s t
  | punctInsert (u v : List Char) (c : Char) :
      allowedChar (pyLower c) = false → TrivialDiff (u ++ v) (u ++ c :: v)
  | wsInsertBefore (u v : List Char) (w w' : Char) :
      isPySpace w = true → isPySpace w' = true →
      TrivialDiff (u ++ w' :: v) (u ++ w :: w' :: v)
  | wsInsertAfter (u v : List Char) (w w' : Char) :
      isPySpace w = true → isPySpace w' = true →
      TrivialDiff (u ++ w' :: v) (u ++ w' :: w :: v)

/-- Equivalence closure of `TrivialDiff`: two character lists differ only in
letter case, punctuation and repeated whitespace. -/
inductive TrivEquiv : List Char → List Char → Prop where
  | base {s t : List Char} : TrivialDiff s t → TrivEquiv s t
  | refl (s : List Char) : TrivEquiv s s
  | symm {s t : List Char} : TrivEquiv s t → TrivEquiv t s
  | trans {s t u : List Char} : TrivEquiv s t → TrivEquiv t u → TrivEquiv s u

/-- `TrivEquiv` on `String`s. -/
def TrivEquivS (s t : String) : Prop := TrivEquiv s.data t.data

lemma isPySpace_cases {c : Char} (h : isPySpace c = true) :
    c = ' ' ∨ c = '\t' ∨ c = '\n' ∨ c = '\r' ∨ c = '\x0b' ∨ c = '\x0c' := by
  have h' := h
  simp only [isPySpace, Bool.or_eq_true, beq_iff_eq] at h'
  tauto

lemma pyLower_of_ws {c : Char} (h : isPySpace c = true) : pyLower c = c := by
  rcases isPySpace_cases h with h' | h' | h' | h' | h' | h' <;> subst h' <;> decide

lemma allowedChar_of_ws {c : Char} (h : isPySpace c = true) : allowedChar c = true := by
  simp [allowedChar, h]

lemma collapseWs_ws_head {c c' : Char} (hc : isPySpace c = true)
    (hc' : isPySpace c' = true) (b : List Char) :
    collapseWs (c :: b) = collapseWs (c' :: b) := by
  cases b with
  | nil => simp [collapseWs, hc, hc']
  | cons d rest =>
    by_cases hd : isPySpace d = true
    · simp [collapseWs, hc, hc', hd]
    · simp [collapseWs, hc, hc', Bool.eq_false_iff.mpr hd]

lemma collapseWs_insert_before {w w' : Char} (hw : isPySpace w = true)
    (hw' : isPySpace w' = true) :
    ∀ (a b : List Char),
      collapseWs (a ++ w :: w' :: b) = collapseWs (a ++ w' :: b)
  | [], b => by simp [collapseWs, hw, hw']
  | x :: a', b => by
    cases a' with
    | nil =>
      have h0 : collapseWs (w :: w' :: b) = collapseWs (w' :: b) := by
        simpa using collapseWs_insert_before hw hw' [] b
      by_cases hx : isPySpace x = true
      · simp only [List.nil_append, List.cons_append]
        rw [show collapseWs (x :: w :: w' :: b) = collapseWs (w :: w' :: b) by
              simp [collapseWs, hx, hw],
            show collapseWs (x :: w' :: b) = collapseWs (w' :: b) by
              simp [collapseWs, hx, hw'],
            h0]
      · simp only [List.nil_append, List.cons_append]
        rw [show collapseWs (x :: w :: w' :: b)
              = (if isPySpace x then ' ' else x) :: collapseWs (w :: w' :: b) by
              simp [collapseWs, hx, hw],
            show collapseWs (x :: w' :: b)
              = (if isPySpace x then ' ' else x) :: collapseWs (w' :: b) by
              simp [collapseWs, hx],
            h0]
    | cons y a'' =>
      have ih := collapseWs_insert_before hw hw' (y :: a'') b
      simp only [List.cons_append] at ih ⊢
      by_cases hxy : (isPySpace x && isPySpace y) = true
      · rw [show collapseWs (x :: y :: (a'' ++ w :: w' :: b))
              = collapseWs (y :: (a'' ++ w :: w' :: b)) by simp [collapseWs, hxy],
            show collapseWs (x :: y :: (a'' ++ w' :: b))
              = collapseWs (y :: (a'' ++ w' :: b)) by simp [collapseWs, hxy],
            ih]
      · rw [show collapseWs (x :: y :: (a'' ++ w :: w' :: b))
              = (if isPySpace x then ' ' else x) :: collapseWs (y :: (a'' ++ w :: w' :: b)) by
              simp [collapseWs, hxy],
            show collapseWs (x :: y :: (a'' ++ w' :: b))
              = (if isPySpace x then ' ' else x) :: collapseWs (y :: (a'' ++ w' :: b)) by
              simp [collapseWs, hxy],
            ih]

lemma collapseWs_insert_after {w w' : Char} (hw : isPySpace w = true)
    (hw' : isPySpace w' = true) :
    ∀ (a b : List Char),
      collapseWs (a ++ w' :: w :: b) = collapseWs (a ++ w' :: b)
  | [], b => by
    simp only [List.nil_append]
    rw [show collapseWs (w' :: w :: b) = collapseWs (w :: b) by
          simp [collapseWs, hw, hw'],
        collapseWs_ws_head hw hw' b]
  | x :: a', b => by
    cases a' with
    | nil =>
      have h0 : collapseWs (w' :: w :: b) = collapseWs (w' :: b) := by
        simpa using collapseWs_insert_after hw hw' [] b
      by_cases hx : isPySpace x = true
      · simp only [List.nil_append, List.cons_append]
        rw [show collapseWs (x :: w' :: w :: b) = collapseWs (w' :: w :: b) by
              simp [collapseWs, hx, hw'],
            show collapseWs (x :: w' :: b) = collapseWs (w' :: b) by
              simp [collapseWs, hx, hw'],
            h0]
      · simp only [List.nil_append, List.cons_append]
        rw [show collapseWs (x :: w' :: w :: b)
              = (if isPySpace x then ' ' else x) :: collapseWs (w' :: w :: b) by
              simp [collapseWs, hx],
            show collapseWs (x :: w' :: b)
              = (if isPySpace x then ' ' else x) :: collapseWs (w' :: b) by
              simp [collapseWs, hx],
            h0]
    | cons y a'' =>
      have ih := collapseWs_insert_after hw hw' (y :: a'') b
      simp only [List.cons_append] at ih ⊢
      by_cases hxy : (isPySpace x && isPySpace y) = true
      · rw [show collapseWs (x :: y :: (a'' ++ w' :: w :: b))
              = collapseWs (y :: (a'' ++ w' :: w :: b)) by simp [collapseWs, hxy],
            show collapseWs (x :: y :: (a'' ++ w' :: b))
              = collapseWs (y :: (a'' ++ w' :: b)) by simp [collapseWs, hxy],
            ih]
      · rw [show collapseWs (x :: y :: (a'' ++ w' :: w :: b))
              = (if isPySpace x then ' ' else x) :: collapseWs (y :: (a'' ++ w' :: w :: b)) by
              simp [collapseWs, hxy],
            show collapseWs (x :: y :: (a'' ++ w' :: b))
              = (if isPySpace x then ' ' else x) :: collapseWs (y :: (a'' ++ w' :: b)) by
              simp [collapseWs, hxy],
            ih]

lemma normalizeChars_of_trivialDiff {s t : List Char} (h : TrivialDiff s t) :
    normalizeChars s = normalizeChars t := by
  cases h with
  | caseChange s t hmap => unfold normalizeChars; rw [hmap]
  | punctInsert u v c hc =>
    unfold normalizeChars
    simp [List.map_append, List.filter_append, hc]
  | wsInsertBefore u v w w' hw hw' =>
    unfold normalizeChars
    simp only [List.map_append, List.filter_append, List.map_cons, List.filter_cons,
      pyLower_of_ws hw, pyLower_of_ws hw', allowedChar_of_ws hw, allowedChar_of_ws hw',
      if_pos]
    rw [collapseWs_insert_before hw hw']
  | wsInsertAfter u v w w' hw hw' =>
    unfold normalizeChars
    simp only [List.map_append, List.filter_append, List.map_cons, List.filter_cons,
      pyLower_of_ws hw, pyLower_of_ws hw', allowedChar_of_ws hw, allowedChar_of_ws hw',
      if_pos]
    rw [collapseWs_insert_after hw hw']

lemma normalizeChars_of_trivEquiv {s t : List Char} (h : TrivEquiv s t) :
    normalizeChars s = normalizeChars t := by
  induction h with
  | base hd => exact normalizeChars_of_trivialDiff hd
  | refl s => rfl
  | symm _ ih => exact ih.symm
  | trans _ _ ih₁ ih₂ => exact ih₁.trans ih₂

lemma normalizeForComparison_of_trivEquivS {s t : String} (h : TrivEquivS s t) :
    normalizeForComparison s = normalizeForComparison t := by
  unfold normalizeForComparison
  rw [normalizeChars_of_trivEquiv h]

lemma trivEquiv_punct_del (s t u v : List Char) (c : Char)
    (hc : allowedChar (pyLower c) = false)
    (hs : s = u ++ c :: v) (ht : t = u ++ v) : TrivEquiv s t := by
  subst hs; subst ht
  exact .symm (.base (.punctInsert u v c hc))

lemma trivEquiv_ws_dup (s t u v : List Char) (w w' : Char)
    (hw : isPySpace w = true) (hw' : isPySpace w' = true)
    (hs : s = u ++ w' :: v) (ht : t = u ++ w :: w' :: v) : TrivEquiv s t := by
  subst hs; subst ht
  exact .base (.wsInsertBefore u v w w' hw hw')

lemma trivEquiv_case {s t : List Char} (h : s.map pyLower = t.map pyLower) :
    TrivEquiv s t := .base (.caseChange s t h)

/-- Claim C2: the signature function returns
`normalize(title) + "|" + normalize(location) + "|" + normalize(dates)`
(lower-casing, dropping characters outside `[a-z0-9\s]`, collapsing
whitespace runs); it is total and deterministic (it is a Lean function),
and triples differing only in letter case, punctuation, or repeated
whitespace produce identical signatures. -/
theorem C2_signature_function :
    (∀ title location dates : String,
        createConferenceSignature title location dates
          = normalizeForComparison title ++ "|" ++ normalizeForComparison location
              ++ "|" ++ normalizeForComparison dates)
    ∧ (∀ t₁ t₂ l₁ l₂ d₁ d₂ : String,
        TrivEquivS t₁ t₂ → TrivEquivS l₁ l₂ → TrivEquivS d₁ d₂ →
        createConferenceSignature t₁ l₁ d₁ = createConferenceSignature t₂ l₂ d₂) := by
  refine ⟨fun _ _ _ => rfl, fun t₁ t₂ l₁ l₂ d₁ d₂ ht hl hd => ?_⟩
  unfold createConferenceSignature
  rw [normalizeForComparison_of_trivEquivS ht,
    normalizeForComparison_of_trivEquivS hl,
    normalizeForComparison_of_trivEquivS hd]

/-- Witness for C2 at concrete inputs differing in case, punctuation and
repeated whitespace. -/
theorem C2_signature_function_witness :
    createConferenceSignature "3rd Finance Conf." "NY, USA" "Jan 10, 2026"
      = createConferenceSignature "3RD  FINANCE CONF" "ny usa" "jan 10 2026" := by
  have ht : TrivEquivS "3rd Finance Conf." "3RD  FINANCE CONF" := by
    refine TrivEquiv.trans (TrivEquiv.trans
      (trivEquiv_punct_del "3rd Finance Conf.".data "3rd Finance Conf".data
        "3rd Finance Conf".data [] '.' (by decide) (by decide) (by decide))
      (trivEquiv_ws_dup "3rd Finance Conf".data "3rd  Finance Conf".data
        "3rd".data "Finance Conf".data ' ' ' '
        (by decide) (by decide) (by decide) (by decide))) ?_
    exact trivEquiv_case (by decide)
  have hl : TrivEquivS "NY, USA" "ny usa" := by
    refine TrivEquiv.trans
      (trivEquiv_punct_del "NY, USA".data "NY USA".data
        "NY".data " USA".data ',' (by decide) (by decide) (by decide)) ?_
    exact trivEquiv_case (by decide)
  have hd : TrivEquivS "Jan 10, 2026" "jan 10 2026" := by
    refine TrivEquiv.trans
      (trivEquiv_punct_del "Jan 10, 2026".data "Jan 10 2026".data
        "Jan 10".data " 2026".data ',' (by decide) (by decide) (by decide)) ?_
    exact trivEquiv_case (by decide)
  exact C2_signature_function.2 _ _ _ _ _ _ ht hl hd

/-- A raw scraped conference record: the six fields produced by
`extract_basic_info` / stored in `output/ssrn.json`. -/
structure Conf where
  title : String
  conference_dates : String
  location : String
  description : String
  ssrn_link : String
  posted_date : String
deriving DecidableEq

/-- Signature of a raw record, as computed by `_create_conference_signature`
on the dict keys `title` / `location` / `conference_dates`. -/
def confSignature (c : Conf) : String :=
  createConferenceSignature c.title c.location c.conference_dates

/-- The persistent raw store `output/ssrn.json`: a metadata block and an
ordered record list. -/
structure SsrnStore where
  created : String
  totalConferences : Nat
  lastUpdated : Option String
  conferences : List Conf
deriving DecidableEq

/-- The append loop of `_save_conferences_to_json` (src/scraper.py lines
200-212): walk the new records, appending each one whose signature is not in
the evolving signature set, and adding the signature of each appended record
to the set.  Returns the list of appended records. -/
def addNewConferences (sigs : List String) : List Conf → List Conf
  | [] => []
  | c :: rest =>
    if confSignature c ∈ sigs then addNewConferences sigs rest
    else c :: addNewConferences (confSignature c :: sigs) rest

/-- `_save_conferences_to_json` (src/scraper.py lines 183-226): load the
store (the `store` argument models the loaded-or-default file contents),
build the signature set of its records, append the new records whose
signatures are absent, and update the metadata block. -/
def saveConferencesToJson (store : SsrnStore) (newConfs : List Conf) (now : String) :
    SsrnStore :=
  let kept := addNewConferences (store.conferences.map confSignature) newConfs
  { created := store.created
    totalConferences := (store.conferences ++ kept).length
    lastUpdated := some now
    conferences := store.conferences ++ kept }

/-- A record of `output/conferences.json` / the CSV export; field names map
to the columns Title, Conference Date, Location, Deadline, Link,
Submission Fee, Registration Fee, Continent, Posted Date. -/
structure FinalRecord where
  title : String
  conferenceDate : String
  location : String
  deadline : String
  link : String
  submissionFee : String
  registrationFee : String
  continent : String
  postedDate : String
deriving DecidableEq

/-- Signature of a processed record, as computed by
`find_new_conferences_for_claude` on the keys `Title` / `Location` /
`Conference Date`. -/
def finalSignature (r : FinalRecord) : String :=
  createConferenceSignature r.title r.location r.conferenceDate

/-- The persistent processed store `output/conferences.json`. -/
structure ConfStore where
  created : String
  totalConferences : Nat
  lastUpdated : Option String
  conferences : List FinalRecord
deriving DecidableEq

/-- The four extracted fields returned by the extraction client
(`ConferenceResult` dataclass in src/scraper.py). -/
structure ConferenceResult where
  submission_deadline : String
  submission_fees : String
  registration_fees : String
  continent : String
deriving DecidableEq

/-- The all-empty extraction result `ConferenceResult()`. -/
def emptyResult : ConferenceResult := ⟨"", "", "", ""⟩

/-- A row of the processed dataframe: the raw record plus the four columns
added by `process_conferences_batch`. -/
structure ProcessedRow where
  base : Conf
  submissionDeadline : String
  submissionFees : String
  registrationFees : String
  continent : String
deriving DecidableEq

/-- A processed row as assembled from a raw record and an extraction
result. -/
def processRow (c : Conf) (r : ConferenceResult) : ProcessedRow :=
  ⟨c, r.submission_deadline, r.submission_fees, r.registration_fees, r.continent⟩

/-- Cleanup applied by `update_conferences_json` to the four extraction
columns: the placeholder strings `nan` / `None` / `null` become empty. -/
def cleanClaudeField (s : String) : String :=
  if s = "nan" ∨ s = "None" ∨ s = "null" then "" else s

/-- The column selection / renaming step of `update_conferences_json`
(main.py lines 323-339). -/
def formatRecord (p : ProcessedRow) : FinalRecord :=
  { title := p.base.title
    conferenceDate := p.base.conference_dates
    location := p.base.location
    deadline := cleanClaudeField p.submissionDeadline
    link := p.base.ssrn_link
    submissionFee := cleanClaudeField p.submissionFees
    registrationFee := cleanClaudeField p.registrationFees
    continent := cleanClaudeField p.continent
    postedDate := p.base.posted_date }

/-- `update_conferences_json` (main.py lines 307-373): with no rows it
returns early leaving the store untouched; otherwise it formats the
processed rows and unconditionally extends the record list, then updates the
metadata block.  It performs no signature check of its own. -/
def updateConferencesJson (store : ConfStore) (processed : List ProcessedRow)
    (now : String) : ConfStore :=
  if processed.isEmpty then store
  else
    let newRecords := processed.map formatRecord
    { created := store.created
      totalConferences := (store.conferences ++ newRecords).length
      lastUpdated := some now
      conferences := store.conferences ++ newRecords }

/-- `find_new_conferences_for_claude` (main.py lines 196-261, without
force-reprocess): keep the raw records whose signature is not among the
signatures of the processed store. -/
def findNewConferencesForClaude (store : ConfStore) (ssrnConfs : List Conf) :
    List Conf :=
  let sigs := store.conferences.map finalSignature
  ssrnConfs.filter (fun c => decide (confSignature c ∉ sigs))

lemma addNewConferences_sublist :
    ∀ (xs : List Conf) (sigs : List String), (addNewConferences sigs xs).Sublist xs
  | [], _ => List.Sublist.refl _
  | c :: rest, sigs => by
    by_cases h : confSignature c ∈ sigs
    · simpa [addNewConferences, h] using
        (addNewConferences_sublist rest sigs).trans (List.sublist_cons_self c rest)
    · simpa [addNewConferences, h] using
        (addNewConferences_sublist rest (confSignature c :: sigs)).cons₂ c

lemma addNewConferences_new :
    ∀ (xs : List Conf) (sigs : List String) (k1 : List Conf) (c : Conf) (k2 : List Conf),
      addNewConferences sigs xs = k1 ++ c :: k2 →
      confSignature c ∉ sigs ∧ confSignature c ∉ k1.map confSignature
  | [], sigs, k1, c, k2, h => by simp [addNewConferences] at h
  | x :: rest, sigs, k1, c, k2, h => by
    by_cases hx : confSignature x ∈ sigs
    · rw [addNewConferences, if_pos hx] at h
      exact addNewConferences_new rest sigs k1 c k2 h
    · rw [addNewConferences, if_neg hx] at h
      cases k1 with
      | nil =>
        simp only [List.nil_append, List.cons.injEq] at h
        refine ⟨h.1 ▸ hx, by simp⟩
      | cons y k1' =>
        rw [List.cons_append] at h
        injection h with h1 h2
        subst h1
        have ih := addNewConferences_new rest (confSignature x :: sigs) k1' c k2 h2
        refine ⟨fun hmem => ih.1 (List.mem_cons_of_mem _ hmem), ?_⟩
        intro hmem
        rw [List.map_cons] at hmem
        rcases List.mem_cons.mp hmem with heq | hmem'
        · exact ih.1 (List.mem_cons.mpr (Or.inl heq))
        · exact ih.2 hmem'

lemma addNewConferences_mem_sig :
    ∀ (xs : List Conf) (sigs : List String) (x : Conf), x ∈ xs →
      confSignature x ∈ sigs ∨
        confSignature x ∈ (addNewConferences sigs xs).map confSignature
  | [], _, x, hx => absurd hx (List.not_mem_nil x)
  | c :: rest, sigs, x, hx => by
    by_cases hc : confSignature c ∈ sigs
    · rw [addNewConferences, if_pos hc]
      rcases List.mem_cons.mp hx with rfl | hx'
      · exact Or.inl hc
      · exact addNewConferences_mem_sig rest sigs x hx'
    · rw [addNewConferences, if_neg hc]
      rcases List.mem_cons.mp hx with rfl | hx'
      · exact Or.inr (by simp)
      · rcases addNewConferences_mem_sig rest (confSignature c :: sigs) x hx' with h | h
        · rcases List.mem_cons.mp h with heq | hmem
          · exact Or.inr (by simp [heq])
          · exact Or.inl hmem
        · exact Or.inr (by simp [h])

lemma addNewConferences_eq_nil (xs : List Conf) (sigs : List String)
    (h : ∀ x ∈ xs, confSignature x ∈ sigs) : addNewConferences sigs xs = [] := by
  induction xs with
  | nil => rfl
  | cons c rest ih =>
    rw [addNewConferences, if_pos (h c (List.mem_cons_self c rest))]
    exact ih fun x hx => h x (List.mem_cons_of_mem c hx)

lemma updateConferencesJson_conferences (store : ConfStore)
    (processed : List ProcessedRow) (now : String) :
    (updateConferencesJson store processed now).conferences
      = store.conferences ++ processed.map formatRecord := by
  unfold updateConferencesJson
  by_cases h : processed.isEmpty
  · rw [if_pos h, List.isEmpty_iff.mp h]
    simp
  · rw [if_neg h]

lemma finalSignature_formatRecord (c : Conf) (r : ConferenceResult) :
    finalSignature (formatRecord (processRow c r)) = confSignature c := rfl

/-- Claim C1 (amended): the scraper-store merge `_save_conferences_to_json`
appends only records whose signature is absent from the store's current
contents (re-checked against the evolving store during the merge) and is
idempotent on record list and count; for the processed store, idempotence
holds for the composition of the signature filter
`find_new_conferences_for_claude` with `update_conferences_json` (which by
itself appends unconditionally). -/
theorem C1_merge_dedup_amended :
    (∀ (store : SsrnStore) (xs : List Conf) (now : String),
      ∃ kept : List Conf,
        (saveConferencesToJson store xs now).conferences = store.conferences ++ kept
        ∧ kept.Sublist xs
        ∧ ∀ k1 c k2, kept = k1 ++ c :: k2 →
            confSignature c ∉ (store.conferences ++ k1).map confSignature)
    ∧ (∀ (store : SsrnStore) (xs : List Conf) (now₁ now₂ : String),
        (saveConferencesToJson (saveConferencesToJson store xs now₁) xs now₂).conferences
          = (saveConferencesToJson store xs now₁).conferences
        ∧ (saveConferencesToJson (saveConferencesToJson store xs now₁) xs now₂).totalConferences
          = (saveConferencesToJson store xs now₁).totalConferences)
    ∧ (∀ (pstore : ConfStore) (xs : List Conf) (ext : Conf → ConferenceResult)
        (now₁ now₂ : String),
        let run := fun (st : ConfStore) (now : String) =>
          updateConferencesJson st
            ((findNewConferencesForClaude st xs).map (fun c => processRow c (ext c))) now
        findNewConferencesForClaude (run pstore now₁) xs = []
        ∧ (run (run pstore now₁) now₂).conferences = (run pstore now₁).conferences) := by
  refine ⟨?_, ?_, ?_⟩
  · intro store xs now
    refine ⟨addNewConferences (store.conferences.map confSignature) xs, rfl,
      addNewConferences_sublist xs _, ?_⟩
    intro k1 c k2 hk
    have h := addNewConferences_new xs (store.conferences.map confSignature) k1 c k2 hk
    intro hmem
    rw [List.map_append] at hmem
    rcases List.mem_append.mp hmem with h1 | h2
    · exact h.1 h1
    · exact h.2 h2
  · intro store xs now₁ now₂
    have hnil : addNewConferences
        (((saveConferencesToJson store xs now₁).conferences).map confSignature) xs = [] := by
      apply addNewConferences_eq_nil
      intro x hx
      show confSignature x ∈
        ((store.conferences ++ addNewConferences (store.conferences.map confSignature) xs).map
          confSignature)
      rw [List.map_append]
      rcases addNewConferences_mem_sig xs (store.conferences.map confSignature) x hx with h | h
      · exact List.mem_append.mpr (Or.inl h)
      · exact List.mem_append.mpr (Or.inr h)
    constructor
    · show (saveConferencesToJson store xs now₁).conferences ++ _
        = (saveConferencesToJson store xs now₁).conferences
      rw [hnil, List.append_nil]
    · show ((saveConferencesToJson store xs now₁).conferences ++ _).length = _
      rw [hnil, List.append_nil]
      rfl
  · intro pstore xs ext now₁ now₂
    intro run
    have hsup : ∀ c ∈ xs, confSignature c ∈ (run pstore now₁).conferences.map finalSignature := by
      intro c hc
      have hconf := updateConferencesJson_conferences pstore
        ((findNewConferencesForClaude pstore xs).map (fun c => processRow c (ext c))) now₁
      show confSignature c ∈ ((run pstore now₁).conferences).map finalSignature
      rw [show (run pstore now₁).conferences = _ from hconf, List.map_append]
      by_cases hmem : confSignature c ∈ pstore.conferences.map finalSignature
      · exact List.mem_append.mpr (Or.inl hmem)
      · refine List.mem_append.mpr (Or.inr ?_)
        have hkeep : c ∈ findNewConferencesForClaude pstore xs := by
          unfold findNewConferencesForClaude
          exact List.mem_filter.mpr ⟨hc, by simpa using hmem⟩
        refine List.mem_map.mpr
          ⟨formatRecord (processRow c (ext c)), ?_, finalSignature_formatRecord c (ext c)⟩
        exact List.mem_map.mpr
          ⟨processRow c (ext c), List.mem_map.mpr ⟨c, hkeep, rfl⟩, rfl⟩
    have hempty : findNewConferencesForClaude (run pstore now₁) xs = [] := by
      unfold findNewConferencesForClaude
      apply List.filter_eq_nil_iff.mpr
      intro c hc
      simpa using hsup c hc
    refine ⟨hempty, ?_⟩
    show (updateConferencesJson _ ((findNewConferencesForClaude (run pstore now₁) xs).map _) _).conferences = _
    rw [hempty]
    rfl

/-- Counterexample to C1 as stated: `update_conferences_json` (one of the two
merge operations the claim covers) appends a record whose signature is
already present in the store, and merging the same record set a second time
changes the record count. -/
theorem C1_merge_dedup_counterexample :
    (updateConferencesJson
        (updateConferencesJson ⟨"", 0, none, []⟩
          [processRow ⟨"Asset Pricing Workshop", "May 2026", "Bonn", "", "", ""⟩ emptyResult]
          "t1")
        [processRow ⟨"Asset Pricing Workshop", "May 2026", "Bonn", "", "", ""⟩ emptyResult]
        "t2").conferences.length
      ≠ (updateConferencesJson ⟨"", 0, none, []⟩
          [processRow ⟨"Asset Pricing Workshop", "May 2026", "Bonn", "", "", ""⟩ emptyResult]
          "t1").conferences.length
    ∧ finalSignature (formatRecord
        (processRow ⟨"Asset Pricing Workshop", "May 2026", "Bonn", "", "", ""⟩ emptyResult))
      ∈ ((updateConferencesJson ⟨"", 0, none, []⟩
          [processRow ⟨"Asset Pricing Workshop", "May 2026", "Bonn", "", "", ""⟩ emptyResult]
          "t1").conferences.map finalSignature) := by
  constructor
  · decide
  · decide

/-- Witness for C1 (amended) at a concrete store and record list. -/
theorem C1_merge_dedup_witness :
    ∃ kept : List Conf,
      (saveConferencesToJson ⟨"", 0, none, []⟩
          [⟨"Asset Pricing Workshop", "May 2026", "Bonn", "", "", ""⟩] "now").conferences
        = ([] : List Conf) ++ kept
      ∧ kept.Sublist [⟨"Asset Pricing Workshop", "May 2026", "Bonn", "", "", ""⟩]
      ∧ ∀ k1 c k2, kept = k1 ++ c :: k2 →
          confSignature c ∉ (([] : List Conf) ++ k1).map confSignature :=
  C1_merge_dedup_amended.1 ⟨"", 0, none, []⟩
    [⟨"Asset Pricing Workshop", "May 2026", "Bonn", "", "", ""⟩] "now"

/-- Claim C7: neither merge operation mutates or deletes existing records:
every record present before the merge is still at its original position with
all fields unchanged afterwards, the merge only appends at the end of the
list, and it updates the metadata block (total count and last-updated
timestamp; `update_conferences_json` returns early and leaves even the
metadata untouched when given no rows). -/
theorem C7_store_append_only :
    (∀ (store : SsrnStore) (xs : List Conf) (now : String) (i : Nat),
        i < store.conferences.length →
        (saveConferencesToJson store xs now).conferences[i]? = store.conferences[i]?)
    ∧ (∀ (store : SsrnStore) (xs : List Conf) (now : String),
        ∃ tail : List Conf,
          (saveConferencesToJson store xs now).conferences = store.conferences ++ tail
          ∧ (saveConferencesToJson store xs now).totalConferences
              = (saveConferencesToJson store xs now).conferences.length
          ∧ (saveConferencesToJson store xs now).lastUpdated = some now)
    ∧ (∀ (pstore : ConfStore) (processed : List ProcessedRow) (now : String) (i : Nat),
        i < pstore.conferences.length →
        (updateConferencesJson pstore processed now).conferences[i]?
          = pstore.conferences[i]?)
    ∧ (∀ (pstore : ConfStore) (processed : List ProcessedRow) (now : String),
        ∃ tail : List FinalRecord,
          (updateConferencesJson pstore processed now).conferences
            = pstore.conferences ++ tail
          ∧ (processed ≠ [] →
              (updateConferencesJson pstore processed now).totalConferences
                = (updateConferencesJson pstore processed now).conferences.length
              ∧ (updateConferencesJson pstore processed now).lastUpdated = some now)) := by
  refine ⟨?_, ?_, ?_, ?_⟩
  · intro store xs now i hi
    show (store.conferences ++ _)[i]? = store.conferences[i]?
    exact List.getElem?_append_left hi
  · intro store xs now
    exact ⟨addNewConferences (store.conferences.map confSignature) xs, rfl, rfl, rfl⟩
  · intro pstore processed now i hi
    rw [updateConferencesJson_conferences]
    exact List.getElem?_append_left hi
  · intro pstore processed now
    refine ⟨processed.map formatRecord, updateConferencesJson_conferences _ _ _, ?_⟩
    intro hne
    have hempty : processed.isEmpty = false := by
      cases processed with
      | nil => exact absurd rfl hne
      | cons p ps => rfl
    have hupd : updateConferencesJson pstore processed now
        = { created := pstore.created
            totalConferences := (pstore.conferences ++ processed.map formatRecord).length
            lastUpdated := some now
            conferences := pstore.conferences ++ processed.map formatRecord } := by
      unfold updateConferencesJson
      rw [hempty]
      simp
    rw [hupd]
    exact ⟨rfl, rfl⟩

/-- Witness for C7 at a concrete one-record store. -/
theorem C7_store_append_only_witness :
    (saveConferencesToJson
        ⟨"", 1, none, [⟨"Asset Pricing Workshop", "May 2026", "Bonn", "", "", ""⟩]⟩
        [⟨"Banking Summit", "June 2026", "Rome", "", "", ""⟩] "now").conferences[0]?
      = some ⟨"Asset Pricing Workshop", "May 2026", "Bonn", "", "", ""⟩ := by
  have h := C7_store_append_only.1
    ⟨"", 1, none, [⟨"Asset Pricing Workshop", "May 2026", "Bonn", "", "", ""⟩]⟩
    [⟨"Banking Summit", "June 2026", "Rome", "", "", ""⟩] "now" 0 (by decide)
  rw [h]
  rfl

/-- Model of the Python substring operator `pat in hay` on character
lists. -/
def listContains : List Char → List Char → Bool
  | [], pat => pat.isEmpty
  | c :: t, pat => pat.isPrefixOf (c :: t) || listContains t pat

/-- Python `tok in s` on `String`. -/
def strContains (s tok : String) : Bool := listContains s.data tok.data

/-- `contains_sample_keywords` (main.py lines 470-480): true when one of the
Title / Location / Link fields is non-empty and its lower-cased text
contains one of the keywords `samp`, `smp`, `trial`. -/
def containsSampleKeywords (r : FinalRecord) : Bool :=
  [r.title, r.location, r.link].any fun f =>
    (!f.isEmpty) && (["samp", "smp", "trial"].any fun k => strContains (pyLowerS f) k)

/-- Row order used by `_sort_conferences_final` (main.py lines 375-444):
posted date descending (dates compared through the parse function built
from `parse_posted_date`, modelled here as an abstract order-embedding
argument `parse`), title ascending as tiebreak.  The pandas
`sort_values(by=[_sort_date, Title], ascending=[False, True])` call orders
rows exactly by this lexicographic relation. -/
def finalOrder (parse : String → Int) (a b : FinalRecord) : Prop :=
  parse b.postedDate < parse a.postedDate ∨
    (parse a.postedDate = parse b.postedDate ∧ a.title ≤ b.title)

instance finalOrderDecidable (parse : String → Int) : DecidableRel (finalOrder parse) :=
  fun a b => by unfold finalOrder; infer_instance

instance finalOrderTotal (parse : String → Int) :
    IsTotal FinalRecord (finalOrder parse) := by
  constructor
  intro a b
  rcases lt_trichotomy (parse a.postedDate) (parse b.postedDate) with h | h | h
  · exact Or.inr (Or.inl h)
  · rcases le_total a.title b.title with ht | ht
    · exact Or.inl (Or.inr ⟨h, ht⟩)
    · exact Or.inr (Or.inr ⟨h.symm, ht⟩)
  · exact Or.inl (Or.inl h)

instance finalOrderTrans (parse : String → Int) :
    IsTrans FinalRecord (finalOrder parse) := by
  constructor
  intro a b c hab hbc
  rcases hab with h1 | ⟨h1, t1⟩
  · rcases hbc with h2 | ⟨h2, t2⟩
    · exact Or.inl (h2.trans h1)
    · exact Or.inl (h2 ▸ h1)
  · rcases hbc with h2 | ⟨h2, t2⟩
    · exact Or.inl (h1 ▸ h2)
    · exact Or.inr ⟨h1.trans h2, t1.trans t2⟩

/-- `_sort_conferences_final`: sort the rows by posted date (newest first)
then title (alphabetical). -/
def sortConferencesFinal (parse : String → Int) (rows : List FinalRecord) :
    List FinalRecord :=
  List.insertionSort (finalOrder parse) rows

/-- `_generate_csv_from_json` (main.py lines 446-509): regenerate the flat
export from the processed store, dropping rows with sample/trial keywords,
then sorting. -/
def generateCsvFromJson (parse : String → Int) (store : ConfStore) :
    List FinalRecord :=
  sortConferencesFinal parse
    (store.conferences.filter fun r => !(containsSampleKeywords r))

lemma isPrefixOf_trans :
    ∀ (a b c : List Char), a.isPrefixOf b = true → b.isPrefixOf c = true →
      a.isPrefixOf c = true
  | [], _, _, _, _ => List.isPrefixOf_nil_left
  | x :: xs, [], c, hab, _ => by simp [List.isPrefixOf] at hab
  | x :: xs, y :: ys, [], _, hbc => by simp [List.isPrefixOf] at hbc
  | x :: xs, y :: ys, z :: zs, hab, hbc => by
    simp only [List.isPrefixOf, Bool.and_eq_true, beq_iff_eq] at hab hbc ⊢
    exact ⟨hab.1.trans hbc.1, isPrefixOf_trans xs ys zs hab.2 hbc.2⟩

lemma listContains_of_isPrefixOf :
    ∀ (hay p q : List Char), q.isPrefixOf p = true → listContains hay p = true →
      listContains hay q = true
  | [], p, q, hq, hp => by
    cases p with
    | nil =>
      cases q with
      | nil => rfl
      | cons _ _ => simp [List.isPrefixOf] at hq
    | cons _ _ => simp [listContains, List.isEmpty] at hp
  | c :: t, p, q, hq, hp => by
    rw [listContains, Bool.or_eq_true] at hp ⊢
    rcases hp with hp | hp
    · exact Or.inl (isPrefixOf_trans q p (c :: t) hq hp)
    · exact Or.inr (listContains_of_isPrefixOf t p q hq hp)

lemma listContains_ne_nil {hay pat : List Char} (hpat : pat ≠ [])
    (h : listContains hay pat = true) : hay ≠ [] := by
  intro hnil
  subst hnil
  rw [listContains, List.isEmpty_iff] at h
  exact hpat h

/-- Claim C8: a stored record whose Title contains "SAMPLE" in any letter
case stays in the persistent store (the export is a pure function of the
store) and is absent from the flat CSV export. -/
theorem C8_sample_records_filtered :
    ∀ (parse : String → Int) (store : ConfStore) (r : FinalRecord),
      r ∈ store.conferences →
      strContains (pyLowerS r.title) "sample" = true →
      r ∈ store.conferences ∧ r ∉ generateCsvFromJson parse store := by
  intro parse store r hmem hsample
  refine ⟨hmem, ?_⟩
  have hsamp : strContains (pyLowerS r.title) "samp" = true :=
    listContains_of_isPrefixOf _ "sample".data "samp".data (by decide) hsample
  have htitle : r.title.isEmpty = false := by
    cases h : r.title.isEmpty with
    | false => rfl
    | true =>
      exfalso
      have hstr : r.title = "" := (String.isEmpty_iff r.title).mp h
      have hne := @listContains_ne_nil (pyLowerS r.title).data
        "sample".data (by decide) hsample
      apply hne
      rw [hstr]
      rfl
  have hkey : containsSampleKeywords r = true := by
    unfold containsSampleKeywords
    rw [List.any_cons, Bool.or_eq_true]
    refine Or.inl ?_
    rw [htitle]
    show (true && _) = true
    rw [Bool.true_and, List.any_cons, Bool.or_eq_true]
    exact Or.inl hsamp
  intro hexport
  have hmemf : r ∈ store.conferences.filter (fun r => !(containsSampleKeywords r)) := by
    have := (List.mem_insertionSort (finalOrder parse)).mp hexport
    exact this
  have := (List.mem_filter.mp hmemf).2
  rw [hkey] at this
  exact Bool.false_ne_true this

/-- Witness for C8 at a concrete store holding a SAMPLE record. -/
theorem C8_sample_records_filtered_witness :
    (⟨"SaMpLe Banking Conference", "May 2026", "Rome", "", "", "", "", "", ""⟩ : FinalRecord)
        ∈ (⟨"", 1, none,
            [⟨"SaMpLe Banking Conference", "May 2026", "Rome", "", "", "", "", "", ""⟩]⟩
            : ConfStore).conferences
    ∧ (⟨"SaMpLe Banking Conference", "May 2026", "Rome", "", "", "", "", "", ""⟩ : FinalRecord)
        ∉ generateCsvFromJson (fun _ => 0)
            ⟨"", 1, none,
              [⟨"SaMpLe Banking Conference", "May 2026", "Rome", "", "", "", "", "", ""⟩]⟩ :=
  C8_sample_records_filtered (fun _ => 0)
    ⟨"", 1, none, [⟨"SaMpLe Banking Conference", "May 2026", "Rome", "", "", "", "", "", ""⟩]⟩
    ⟨"SaMpLe Banking Conference", "May 2026", "Rome", "", "", "", "", "", ""⟩
    (by decide) (by decide)

/-- Claim C9: the flat export is sorted by parsed posted date newest first,
with title as alphabetical tiebreak, for every adjacent pair of rows. -/
theorem C9_export_sort_order :
    ∀ (parse : String → Int) (store : ConfStore),
      List.Chain'
        (fun a b => parse b.postedDate ≤ parse a.postedDate
          ∧ (parse a.postedDate = parse b.postedDate → a.title ≤ b.title))
        (generateCsvFromJson parse store) := by
  intro parse store
  have hs := List.sorted_insertionSort (finalOrder parse)
    (store.conferences.filter fun r => !(containsSampleKeywords r))
  have hc : List.Chain' (finalOrder parse) (generateCsvFromJson parse store) :=
    List.Pairwise.chain' hs
  refine hc.imp ?_
  intro a b hab
  rcases hab with hlt | ⟨heq, hle⟩
  · refine ⟨le_of_lt hlt, fun he => absurd hlt ?_⟩
    rw [he]
    exact lt_irrefl _
  · exact ⟨le_of_eq heq.symm, fun _ => hle⟩

/-- `extract_basic_info` output type: a listing element, abstracted to the
`Conf` it parses to (extraction is deterministic per element; the `extract`
argument below models `extract_basic_info`). -/
def titleTooShort (c : Conf) : Prop := c.title = "" ∨ c.title.length ≤ 5

instance (c : Conf) : Decidable (titleTooShort c) := by
  unfold titleTooShort; infer_instance

/-- The dateless test of `process_conference_with_details` (src/scraper.py
lines 897-900): empty, whitespace-only, or literal `nan` conference dates. -/
def datelessConf (c : Conf) : Prop :=
  c.conference_dates = "" ∨ pyStripS c.conference_dates = "" ∨ c.conference_dates = "nan"

instance (c : Conf) : Decidable (datelessConf c) := by
  unfold datelessConf; infer_instance

/-- `process_conference_with_details` (src/scraper.py lines 890-925):
discard short-titled and dateless candidates, then enrich the description
from the detail page (`fetchDetail` models `get_detailed_info` plus its
exception handling: `none` is a raised exception, `some ""` a page with no
usable description). -/
def processConferenceWithDetails (fetchDetail : String → Option String)
    (c : Conf) : Option Conf :=
  if titleTooShort c then none
  else if datelessConf c then none
  else
    let desc :=
      if c.ssrn_link ≠ "" then
        match fetchDetail c.ssrn_link with
        | some d => if d ≠ "" then d else c.description
        | none => c.description
      else c.description
    some { c with description := desc }

/-- The candidate-producing part of `scrape_conferences` (src/scraper.py
lines 989-1105) after the elements have been gathered: drop short-titled
elements, drop elements whose signature is already known, then either
return the basic records directly (`fetchDetails = false`, lines 1057-1070)
or run each element through `process_conference_with_details`
(`fetchDetails = true`, lines 1079-1092, exceptions skip the element).
`extract` models `extract_basic_info`. -/
def scrapeConferences {ε : Type} (extract : ε → Conf)
    (fetchDetail : String → Option String) (existingSigs : List String)
    (fetchDetails : Bool) (elements : List ε) : List Conf :=
  let newElements := elements.filter fun e =>
    let c := extract e
    !(decide (titleTooShort c)) && !(decide (confSignature c ∈ existingSigs))
  if fetchDetails then
    newElements.filterMap fun e => processConferenceWithDetails fetchDetail (extract e)
  else
    newElements.map extract

lemma processConferenceWithDetails_fields {fetchDetail : String → Option String}
    {c r : Conf} (h : processConferenceWithDetails fetchDetail c = some r) :
    ¬titleTooShort r ∧ ¬datelessConf r := by
  unfold processConferenceWithDetails at h
  by_cases ht : titleTooShort c
  · rw [if_pos ht] at h; exact absurd h (by simp)
  · rw [if_neg ht] at h
    by_cases hd : datelessConf c
    · rw [if_pos hd] at h; exact absurd h (by simp)
    · rw [if_neg hd] at h
      have hr : r = { c with description := _ } := (Option.some.injEq _ _ ▸ h.symm)
      constructor
      · intro habs
        apply ht
        rcases habs with h1 | h1
        · exact Or.inl (by rw [hr] at h1; exact h1)
        · exact Or.inr (by rw [hr] at h1; exact h1)
      · intro habs
        apply hd
        rcases habs with h1 | h1 | h1
        · exact Or.inl (by rw [hr] at h1; exact h1)
        · exact Or.inr (Or.inl (by rw [hr] at h1; exact h1))
        · exact Or.inr (Or.inr (by rw [hr] at h1; exact h1))

/-- Claim C6 (amended): the short-title filter (empty or at most five
characters) applies on every path: `process_conference_with_details` and
both modes of `scrape_conferences` emit no short-titled record.  The
dateless filter is applied by `process_conference_with_details`, hence by
`scrape_conferences` with `fetch_details=True`; with `fetch_details=False`
dateless candidates are emitted (see the counterexample). -/
theorem C6_candidate_filters_amended :
    (∀ (fetchDetail : String → Option String) (c : Conf),
        (titleTooShort c ∨ datelessConf c) →
        processConferenceWithDetails fetchDetail c = none)
    ∧ (∀ {ε : Type} (extract : ε → Conf) (fetchDetail : String → Option String)
        (sigs : List String) (mode : Bool) (elements : List ε) (r : Conf),
        r ∈ scrapeConferences extract fetchDetail sigs mode elements →
        ¬titleTooShort r)
    ∧ (∀ {ε : Type} (extract : ε → Conf) (fetchDetail : String → Option String)
        (sigs : List String) (elements : List ε) (r : Conf),
        r ∈ scrapeConferences extract fetchDetail sigs true elements →
        ¬datelessConf r) := by
  refine ⟨?_, ?_, ?_⟩
  · intro fetchDetail c h
    unfold processConferenceWithDetails
    rcases h with h | h
    · rw [if_pos h]
    · by_cases ht : titleTooShort c
      · rw [if_pos ht]
      · rw [if_neg ht, if_pos h]
  · intro ε extract fetchDetail sigs mode elements r hr
    unfold scrapeConferences at hr
    cases mode with
    | true =>
      rw [if_pos rfl] at hr
      obtain ⟨e, _, he⟩ := List.mem_filterMap.mp hr
      exact (processConferenceWithDetails_fields he).1
    | false =>
      rw [if_neg (by simp)] at hr
      obtain ⟨e, hemem, rfl⟩ := List.mem_map.mp hr
      have := (List.mem_filter.mp hemem).2
      intro habs
      simp only [Bool.and_eq_true, Bool.not_eq_true', decide_eq_false_iff_not] at this
      exact this.1 habs
  · intro ε extract fetchDetail sigs elements r hr
    unfold scrapeConferences at hr
    rw [if_pos rfl] at hr
    obtain ⟨e, _, he⟩ := List.mem_filterMap.mp hr
    exact (processConferenceWithDetails_fields he).2

/-- Counterexample to C6 as stated: with `fetch_details=False`,
`scrape_conferences` emits a record whose conference-dates field is empty
(the dateless filter lives only in `process_conference_with_details`, which
that mode never calls). -/
theorem C6_candidate_filters_counterexample :
    scrapeConferences (ε := Conf) id (fun _ => none) [] false
        [⟨"International Finance Conference", "", "Lisbon", "d", "", ""⟩]
      = [⟨"International Finance Conference", "", "Lisbon", "d", "", ""⟩]
    ∧ datelessConf ⟨"International Finance Conference", "", "Lisbon", "d", "", ""⟩ := by
  constructor
  · decide
  · exact Or.inl rfl

/-- Witness for C6 (amended) at a concrete element list. -/
theorem C6_candidate_filters_witness :
    ¬titleTooShort (⟨"International Finance Conference", "May 2026", "Lisbon", "d", "", ""⟩ : Conf)
    ∧ ¬datelessConf (⟨"International Finance Conference", "May 2026", "Lisbon", "d", "", ""⟩ : Conf) := by
  have hmem : (⟨"International Finance Conference", "May 2026", "Lisbon", "d", "", ""⟩ : Conf)
      ∈ scrapeConferences (ε := Conf) id (fun _ => none) [] true
          [⟨"International Finance Conference", "May 2026", "Lisbon", "d", "", ""⟩] := by
    decide
  exact ⟨C6_candidate_filters_amended.2.1 id (fun _ => none) [] true _ _ hmem,
    C6_candidate_filters_amended.2.2 id (fun _ => none) [] _ _ hmem⟩

/-- Overwrite the four extraction columns of row `i` with `res`, the model
of `result_df.at[index, col] = value` for the four columns (the dataframe's
index labels are the positions `0..n-1`). -/
def setFields : List ProcessedRow → Nat → ConferenceResult → List ProcessedRow
  | [], _, _ => []
  | x :: xs, 0, res =>
    { x with submissionDeadline := res.submission_deadline
             submissionFees := res.submission_fees
             registrationFees := res.registration_fees
             continent := res.continent } :: xs
  | x :: xs, n + 1, res => x :: setFields xs n res

/-- The value row `i` holds after a write of `res`: the raw fields of the
original record with the four extraction columns from `res`. -/
def applyResult (c : Conf) (res : ConferenceResult) : ProcessedRow :=
  ⟨c, res.submission_deadline, res.submission_fees, res.registration_fees, res.continent⟩

/-- One task of `process_conferences_batch`: `call_claude_api` either
returns a result (`ok`) or raises (`error`), and `process_single_conference`
maps a raise to the empty result for that index. -/
def taskOutcome (ext : Nat → Except Unit ConferenceResult) (i : Nat) : ConferenceResult :=
  match ext i with
  | .ok r => r
  | .error _ => emptyResult

/-- The multiset of (index, result) pairs the chunked `asyncio.gather` loop
delivers: one pair per row, indexed by original position. -/
def taskResults (ext : Nat → Except Unit ConferenceResult) (rows : List Conf) :
    List (Nat × ConferenceResult) :=
  (List.range rows.length).map fun i => (i, taskOutcome ext i)

/-- `process_conferences_batch` (src/scraper.py lines 1107-1183): initialize
the result rows with empty extraction columns, then write each delivered
(index, result) pair into its row.  `completed` is the delivery order:
chunks are gathered sequentially and each chunk's completion order is
unspecified, so `completed` is an arbitrary permutation of `taskResults`
(chunk-respecting interleavings are a special case). -/
def processConferencesBatch (rows : List Conf)
    (completed : List (Nat × ConferenceResult)) : List ProcessedRow :=
  completed.foldl (fun acc p => setFields acc p.1 p.2)
    (rows.map fun c => processRow c emptyResult)

/-- The intended output: row `i` is the `i`-th input record together with
its own task's outcome. -/
def idealBatchFrom (ext : Nat → Except Unit ConferenceResult) :
    Nat → List Conf → List ProcessedRow
  | _, [] => []
  | i, c :: rest => applyResult c (taskOutcome ext i) :: idealBatchFrom ext (i + 1) rest

/-- Output of the batch orchestrator on a fault-free scheduler. -/
def idealBatch (ext : Nat → Except Unit ConferenceResult) (rows : List Conf) :
    List ProcessedRow :=
  idealBatchFrom ext 0 rows

lemma setFields_length (l : List ProcessedRow) (i : Nat) (res : ConferenceResult) :
    (setFields l i res).length = l.length := by
  induction l generalizing i with
  | nil => rfl
  | cons x xs ih =>
    cases i with
    | zero => rfl
    | succ n => simpa [setFields] using ih n

lemma setFields_getElem? (l : List ProcessedRow) (i j : Nat) (res : ConferenceResult) :
    (setFields l i res)[j]?
      = if i = j then (l[j]?).map (fun x => applyResult x.base res) else l[j]? := by
  induction l generalizing i j with
  | nil => simp [setFields]
  | cons x xs ih =>
    cases i with
    | zero =>
      cases j with
      | zero => simp [setFields, applyResult]
      | succ m => simp [setFields]
    | succ n =>
      cases j with
      | zero => simp [setFields]
      | succ m => simpa [setFields] using ih n m

lemma applyResult_base (x : ProcessedRow) (res res' : ConferenceResult) :
    applyResult (applyResult x.base res).base res' = applyResult x.base res' := rfl

lemma batch_foldl_getElem?
    (ext : Nat → Except Unit ConferenceResult) :
    ∀ (ws : List (Nat × ConferenceResult)) (init : List ProcessedRow),
      (∀ p ∈ ws, p.2 = taskOutcome ext p.1) →
      ∀ j : Nat,
        (ws.foldl (fun acc p => setFields acc p.1 p.2) init)[j]?
          = if ws.any (fun p => decide (p.1 = j))
            then (init[j]?).map (fun x => applyResult x.base (taskOutcome ext j))
            else init[j]?
  | [], init, _, j => by simp
  | (i, res) :: rest, init, hws, j => by
    have hres : res = taskOutcome ext i := hws (i, res) (List.mem_cons_self _ _)
    have ih := batch_foldl_getElem? ext rest (setFields init i res)
      (fun p hp => hws p (List.mem_cons_of_mem _ hp)) j
    simp only [List.foldl_cons]
    rw [ih, setFields_getElem?, List.any_cons]
    by_cases hij : i = j
    · subst hij
      rw [if_pos rfl]
      by_cases hr : rest.any (fun p => decide (p.1 = i)) = true
      · rw [if_pos hr, if_pos (by simp [hr]), Option.map_map]
        cases h : init[i]? with
        | none => rfl
        | some x => simp [hres, applyResult_base, Function.comp]
      · rw [if_neg hr, if_pos (by simp), hres]
    · rw [if_neg hij]
      by_cases hr : rest.any (fun p => decide (p.1 = j)) = true
      · rw [if_pos hr, if_pos (by simp [hr])]
      · rw [if_neg hr, if_neg (by simp [hij, hr])]

lemma idealBatchFrom_getElem? (ext : Nat → Except Unit ConferenceResult) :
    ∀ (rows : List Conf) (k j : Nat),
      (idealBatchFrom ext k rows)[j]?
        = (rows[j]?).map fun c => applyResult c (taskOutcome ext (k + j))
  | [], k, j => by simp [idealBatchFrom]
  | c :: rest, k, 0 => by simp [idealBatchFrom]
  | c :: rest, k, j + 1 => by
    have := idealBatchFrom_getElem? ext rest (k + 1) j
    simpa [idealBatchFrom, Nat.add_assoc, Nat.add_comm 1 j] using this

lemma processConferencesBatch_getElem?
    (rows : List Conf) (ext : Nat → Except Unit ConferenceResult)
    (completed : List (Nat × ConferenceResult))
    (hperm : completed.Perm (taskResults ext rows)) (j : Nat) :
    (processConferencesBatch rows completed)[j]?
      = (rows[j]?).map fun c => applyResult c (taskOutcome ext j) := by
  have hws : ∀ p ∈ completed, p.2 = taskOutcome ext p.1 := by
    intro p hp
    have hmem := hperm.mem_iff.mp hp
    obtain ⟨i, _, heq⟩ := List.mem_map.mp hmem
    rw [← heq]
  have hfold := batch_foldl_getElem? ext completed
    (rows.map fun c => processRow c emptyResult) hws j
  show (completed.foldl (fun acc p => setFields acc p.1 p.2)
      (rows.map fun c => processRow c emptyResult))[j]?
    = (rows[j]?).map fun c => applyResult c (taskOutcome ext j)
  rw [hfold]
  by_cases hj : j < rows.length
  · have hmem : (j, taskOutcome ext j) ∈ completed :=
      hperm.mem_iff.mpr (List.mem_map.mpr ⟨j, List.mem_range.mpr hj, rfl⟩)
    have hany : completed.any (fun p => decide (p.1 = j)) = true :=
      List.any_eq_true.mpr ⟨(j, taskOutcome ext j), hmem, by simp⟩
    rw [if_pos hany, List.getElem?_map, Option.map_map]
    cases rows[j]? with
    | none => rfl
    | some c => simp [Function.comp, applyResult, processRow]
  · have hnone : rows[j]? = none := by
      rw [List.getElem?_eq_none_iff]
      exact le_of_not_lt hj
    have hinit : (rows.map fun c => processRow c emptyResult)[j]? = none := by
      rw [List.getElem?_map, hnone]
      rfl
    by_cases hany : completed.any (fun p => decide (p.1 = j)) = true
    · rw [if_pos hany, hinit, hnone]
      rfl
    · rw [if_neg hany, hinit, hnone]
      rfl

lemma processConferencesBatch_length
    (rows : List Conf) (completed : List (Nat × ConferenceResult)) :
    (processConferencesBatch rows completed).length = rows.length := by
  show (completed.foldl (fun acc p => setFields acc p.1 p.2)
      (rows.map fun c => processRow c emptyResult)).length = rows.length
  have haux : ∀ (ws : List (Nat × ConferenceResult)) (init : List ProcessedRow),
      (ws.foldl (fun acc p => setFields acc p.1 p.2) init).length = init.length := by
    intro ws
    induction ws with
    | nil => intro init; rfl
    | cons p rest ih =>
      intro init
      rw [List.foldl_cons, ih, setFields_length]
  rw [haux, List.length_map]

/-- Claim C4: the batch processor returns exactly one output row per input
row, in input order; a failing item (an exception inside its task) yields
the empty extraction fields at its own position, while every other row keeps
its position and its own result — independent of the completion order of the
chunked gather (modelled as an arbitrary permutation `completed` of the
per-index task results, so a failure never suppresses later chunks'
writes). -/
theorem C4_batch_order_preserved :
    ∀ (rows : List Conf) (ext : Nat → Except Unit ConferenceResult)
      (completed : List (Nat × ConferenceResult)),
      completed.Perm (taskResults ext rows) →
      processConferencesBatch rows completed = idealBatch ext rows
      ∧ (processConferencesBatch rows completed).length = rows.length
      ∧ (∀ k : Nat,
          (processConferencesBatch rows completed)[k]?
            = (rows[k]?).map fun c => applyResult c (taskOutcome ext k))
      ∧ (∀ k : Nat, ext k = .error () →
          (processConferencesBatch rows completed)[k]?
            = (rows[k]?).map fun c => applyResult c emptyResult) := by
  intro rows ext completed hperm
  have hpoint := processConferencesBatch_getElem? rows ext completed hperm
  refine ⟨?_, processConferencesBatch_length rows completed, hpoint, ?_⟩
  · apply List.ext_getElem?
    intro n
    rw [hpoint n, idealBatch, idealBatchFrom_getElem? ext rows 0 n, Nat.zero_add]
  · intro k hk
    rw [hpoint k]
    unfold taskOutcome
    rw [hk]

/-- Witness for C4: three rows, the middle task raising, delivered in
reverse order. -/
theorem C4_batch_order_preserved_witness :
    processConferencesBatch
        [⟨"A Conference", "d1", "l1", "", "", ""⟩,
         ⟨"B Conference", "d2", "l2", "", "", ""⟩,
         ⟨"C Conference", "d3", "l3", "", "", ""⟩]
        ((taskResults
            (fun i => if i = 1 then .error () else .ok ⟨"2026/01/01", "$50", "$100", "Europe"⟩)
            [⟨"A Conference", "d1", "l1", "", "", ""⟩,
             ⟨"B Conference", "d2", "l2", "", "", ""⟩,
             ⟨"C Conference", "d3", "l3", "", "", ""⟩]).reverse)
      = idealBatch
          (fun i => if i = 1 then .error () else .ok ⟨"2026/01/01", "$50", "$100", "Europe"⟩)
          [⟨"A Conference", "d1", "l1", "", "", ""⟩,
           ⟨"B Conference", "d2", "l2", "", "", ""⟩,
           ⟨"C Conference", "d3", "l3", "", "", ""⟩] :=
  (C4_batch_order_preserved _ _ _ (List.reverse_perm _)).1

/-- JSON whitespace as accepted by `json.loads` between tokens. -/
def jsonWs (c : Char) : Bool := c == ' ' || c == '\t' || c == '\n' || c == '\r'

/-- Skip JSON whitespace. -/
def skipWs (l : List Char) : List Char := l.dropWhile jsonWs

/-- Read a JSON string body up to the closing quote.  The model covers
escape-free strings: a backslash or a control character makes the parse
fail, where `json.loads` would process the escape; the claims below are
stated for escape-free field values. -/
def readStr : List Char → Option (List Char × List Char)
  | [] => none
  | c :: rest =>
    if c == '"' then some ([], rest)
    else if c == '\\' || decide (c.toNat < 32) then none
    else
      match readStr rest with
      | some (s, r) => some (c :: s, r)
      | none => none

/-- Parse the members of a flat string-valued JSON object, positioned just
after the opening brace; consumes the closing brace.  Fuel bounds the
number of members (each consumes input, so input length suffices). -/
def parseMembers : Nat → List Char → Option (List (String × String) × List Char)
  | 0, _ => none
  | fuel + 1, l =>
    match skipWs l with
    | [] => none
    | c :: r1 =>
      if c == '"' then
        match readStr r1 with
        | none => none
        | some (key, r2) =>
          match skipWs r2 with
          | [] => none
          | c2 :: r3 =>
            if c2 == ':' then
              match skipWs r3 with
              | [] => none
              | c3 :: r4 =>
                if c3 == '"' then
                  match readStr r4 with
                  | none => none
                  | some (val, r5) =>
                    match skipWs r5 with
                    | [] => none
                    | c4 :: r6 =>
                      if c4 == ',' then
                        match parseMembers fuel r6 with
                        | some (ps, rest) => some ((String.mk key, String.mk val) :: ps, rest)
                        | none => none
                      else if c4 == '\x7d' then some ([(String.mk key, String.mk val)], r6)
                      else none
                else none
            else none
      else none

/-- Model of `json.loads` restricted to flat JSON objects whose values are
escape-free strings (the shape the extraction service is instructed to
return); every other document is treated as a decode failure.  Requires the
whole input to be consumed (as `json.loads` does). -/
def jsonLoadsFlat (cs : List Char) : Option (List (String × String)) :=
  match skipWs cs with
  | [] => none
  | c :: r =>
    if c == '\x7b' then
      match skipWs r with
      | [] => none
      | d :: r' =>
        if d == '\x7d' then (if (skipWs r').isEmpty then some [] else none)
        else
          match parseMembers (cs.length + 1) r with
          | some (ps, rest) => if (skipWs rest).isEmpty then some ps else none
          | none => none
    else none

/-- `dict.get(key, '')` on the parsed member list (keys in the replies under
verification are distinct, so first-match lookup agrees with Python's
last-wins duplicate resolution). -/
def jsonGet (d : List (String × String)) (k : String) : String :=
  match d.lookup k with
  | some v => v
  | none => ""

/-- `_clean_field` (src/scraper.py lines 131-135): empty and the
placeholders nan/null/none/n-a (case-insensitively, on the whole value)
become empty, everything else is whitespace-stripped. -/
def cleanField (s : String) : String :=
  if s.isEmpty then ""
  else if pyLowerS s = "nan" ∨ pyLowerS s = "null" ∨ pyLowerS s = "none"
      ∨ pyLowerS s = "n/a" then ""
  else pyStripS s

/-- Python `str.find(ch)` (position of first occurrence). -/
def pyFindChar (cs : List Char) (c : Char) : Option Nat :=
  cs.findIdx? (fun x => x == c)

/-- Python `str.rfind(ch)` (position of last occurrence). -/
def pyRFindChar (cs : List Char) (c : Char) : Option Nat :=
  (cs.reverse.findIdx? (fun x => x == c)).map (fun j => cs.length - 1 - j)

/-- The brace-boundary extraction `content[content.find('x7b') :
content.rfind('x7d') + 1]` of `_parse_json_response`; `none` when either
brace is absent (find returns -1). -/
def braceSubstring (cs : List Char) : Option (List Char) :=
  match pyFindChar cs '\x7b', pyRFindChar cs '\x7d' with
  | some s, some e => some ((cs.drop s).take (e + 1 - s))
  | _, _ => none

/-- Python `s.split(sep)` for a one-character separator. -/
def splitOnChar (sep : Char) : List Char → List (List Char)
  | [] => [[]]
  | c :: t =>
    match splitOnChar sep t with
    | [] => [[]]
    | s :: rest => if c == sep then [] :: s :: rest else (c :: s) :: rest

/-- Python `sep.join(parts)` for a one-character separator. -/
def joinChar (sep : Char) : List (List Char) → List Char
  | [] => []
  | [x] => x
  | x :: y :: rest => x ++ sep :: joinChar sep (y :: rest)

/-- Python `str.startswith`. -/
def startsWithChars (cs pat : List Char) : Bool := pat.isPrefixOf cs

/-- Python `str.endswith`. -/
def endsWithChars (cs pat : List Char) : Bool := pat.reverse.isPrefixOf cs.reverse

/-- The code-fence stripping of `_parse_json_response`:
`'\n'.join(content.split('\n')[1:-1])`. -/
def stripFence (cs : List Char) : List Char :=
  joinChar '\n' (((splitOnChar '\n' cs).drop 1).dropLast)

/-- The preprocessing of `_parse_json_response` (both variants): strip, then
remove surrounding code-fence markers.  The `elif` branch for an exact
 ```json prefix is unreachable (the first branch's condition subsumes it)
but is translated faithfully. -/
def preprocessReply (cs : List Char) : List Char :=
  let cs := stripChars cs
  if startsWithChars cs "```".data && endsWithChars cs "```".data then
    stripFence cs
  else if startsWithChars cs "```json".data && endsWithChars cs "```".data then
    let t := cs.drop 7
    stripChars (t.take (t.length - 3))
  else cs

/-- Suffix of `cs` after the first occurrence of `pat`, or `none`. -/
def findSubstrTail : List Char → List Char → Option (List Char)
  | [], pat => if pat.isEmpty then some [] else none
  | c :: t, pat =>
    if pat.isPrefixOf (c :: t) then some ((c :: t).drop pat.length)
    else findSubstrTail t pat

/-- One field of the regex fallback:
`re.search('"<key>":\s*"([^"]*)"', content)`, modelled as: find the literal
`"<key>":`, skip whitespace, and read a quoted escape-free value (the model
anchors at the first occurrence of the literal part). -/
def regexFieldValue (cs : List Char) (key : String) : Option String :=
  match findSubstrTail cs ('"' :: (key.data ++ ['"', ':'])) with
  | none => none
  | some rest =>
    match rest.dropWhile isPySpace with
    | '"' :: r =>
      let v := r.takeWhile (fun c => !(c == '"'))
      if v.length = r.length then none else some (String.mk v)
    | _ => none

/-- `_parse_json_response` of src/scraper.py (lines 829-888): strip fences,
strict parse, brace-boundary re-parse, then regex fallback; every recovered
field goes through `_clean_field`, missing fields stay empty. -/
def parseJsonResponseChars (cs : List Char) : ConferenceResult :=
  let content := preprocessReply cs
  match jsonLoadsFlat content with
  | some d =>
      ⟨cleanField (jsonGet d "Submission Deadline"),
        cleanField (jsonGet d "Submission Fees"),
        cleanField (jsonGet d "Registration Fees"),
        cleanField (jsonGet d "Continent")⟩
  | none =>
    match (braceSubstring content).bind jsonLoadsFlat with
    | some d =>
        ⟨cleanField (jsonGet d "Submission Deadline"),
          cleanField (jsonGet d "Submission Fees"),
          cleanField (jsonGet d "Registration Fees"),
          cleanField (jsonGet d "Continent")⟩
    | none =>
        ⟨(regexFieldValue content "Submission Deadline").elim "" cleanField,
          (regexFieldValue content "Submission Fees").elim "" cleanField,
          (regexFieldValue content "Registration Fees").elim "" cleanField,
          (regexFieldValue content "Continent").elim "" cleanField⟩

/-- `_parse_json_response` on `String`. -/
def parseJsonResponse (content : String) : ConferenceResult :=
  parseJsonResponseChars content.data

/-- The DeepSeek variant's result dataclass (deepseek.py lines 23-28):
singular fee field names. -/
structure DeepseekResult where
  submission_deadline : String
  submission_fee : String
  registration_fee : String
  continent : String
deriving DecidableEq

/-- `_parse_json_response` of deepseek.py (lines 188-252): same strip /
strict parse / brace-boundary stages (no field cleaning), but the module's import
list (lines 7-17: asyncio, aiohttp, json, time, pandas, typing,
logging, pathlib, hashlib, dataclasses, pickle) does not bind `re`, so the
first `re.search` of the regex-fallback stage raises `NameError`; the
enclosing `except Exception` catches it and the function returns the empty
`ConferenceResult()`.  The fallback stage therefore always produces the
all-empty result. -/
def deepseekParseJsonResponseChars (cs : List Char) : DeepseekResult :=
  let content := preprocessReply cs
  match jsonLoadsFlat content with
  | some d =>
      ⟨jsonGet d "Submission Deadline", jsonGet d "Submission Fee",
        jsonGet d "Registration Fee", jsonGet d "Continent"⟩
  | none =>
    match (braceSubstring content).bind jsonLoadsFlat with
    | some d =>
        ⟨jsonGet d "Submission Deadline", jsonGet d "Submission Fee",
          jsonGet d "Registration Fee", jsonGet d "Continent"⟩
    | none => ⟨"", "", "", ""⟩

/-- deepseek.py `_parse_json_response` on `String`. -/
def deepseekParseJsonResponse (content : String) : DeepseekResult :=
  deepseekParseJsonResponseChars content.data

/-- Claim C10: in the DeepSeek variant, whenever both the strict parse and
the brace-boundary substring parse fail, the parser returns the all-empty
result: the regex fallback can never extract a value because `re` is
unresolved in deepseek.py and the resulting `NameError` is caught and
swallowed. -/
theorem C10_deepseek_fallback_always_empty :
    ∀ content : String,
      jsonLoadsFlat (preprocessReply content.data) = none →
      (braceSubstring (preprocessReply content.data)).bind jsonLoadsFlat = none →
      deepseekParseJsonResponse content = ⟨"", "", "", ""⟩ := by
  intro content h1 h2
  simp only [deepseekParseJsonResponse, deepseekParseJsonResponseChars, h1, h2]

set_option maxRecDepth 10000 in
/-- Witness for C10 at a reply that fails both parse stages. -/
theorem C10_deepseek_fallback_always_empty_witness :
    deepseekParseJsonResponse "The paper submission deadline is May 1."
      = ⟨"", "", "", ""⟩ :=
  C10_deepseek_fallback_always_empty "The paper submission deadline is May 1."
    (by decide) (by decide)

/-- One attempt's interaction with the extraction endpoint, as seen by the
retry loop of `call_claude_api` / `call_deepseek_api`: a 200 reply whose
text was extracted (`okReply`), a 429 rate-limit reply, another HTTP status,
a timeout, or any other raised exception (network failure, malformed reply
body).  Every failure shape consumes one attempt and continues the loop. -/
inductive ApiOutcome where
  | okReply (content : String)
  | rateLimited
  | httpError (code : Nat)
  | timeout
  | raised

/-- The reply text of the first successful attempt among
`attempt, attempt+1, ..., attempt+fuel-1`, if any. -/
def firstOkReply (outcomes : Nat → ApiOutcome) : Nat → Nat → Option String
  | _, 0 => none
  | attempt, fuel + 1 =>
    match outcomes attempt with
    | .okReply c => some c
    | _ => firstOkReply outcomes (attempt + 1) fuel

/-- The retry loop of `call_claude_api` (src/scraper.py lines 755-827): a
successful attempt's reply is parsed and returned; rate limits, other HTTP
errors, timeouts and exceptions all fall through to the next attempt; after
the last attempt the empty `ConferenceResult()` is returned. -/
def callClaudeApiGo (outcomes : Nat → ApiOutcome) : Nat → Nat → ConferenceResult
  | _, 0 => ⟨"", "", "", ""⟩
  | attempt, fuel + 1 =>
    match outcomes attempt with
    | .okReply c => parseJsonResponse c
    | _ => callClaudeApiGo outcomes (attempt + 1) fuel

/-- `call_claude_api` with its retry budget (default 3). -/
def callClaudeApi (outcomes : Nat → ApiOutcome) (retryCount : Nat) : ConferenceResult :=
  callClaudeApiGo outcomes 0 retryCount

/-- Retry loop of `call_deepseek_api` (deepseek.py lines 148-186). -/
def callDeepseekApiGo (outcomes : Nat → ApiOutcome) : Nat → Nat → DeepseekResult
  | _, 0 => ⟨"", "", "", ""⟩
  | attempt, fuel + 1 =>
    match outcomes attempt with
    | .okReply c => deepseekParseJsonResponse c
    | _ => callDeepseekApiGo outcomes (attempt + 1) fuel

/-- `call_deepseek_api` (deepseek.py lines 126-186): a cache hit (the cache
key is the md5 fingerprint of title, location and the first 500 description
characters, modelled by that triple) returns the cached result without any
network interaction; otherwise the retry loop runs. -/
def callDeepseekApi (cache : String × String × String → Option DeepseekResult)
    (title location description : String) (outcomes : Nat → ApiOutcome)
    (retryCount : Nat) : DeepseekResult :=
  match cache (title, location, description.take 500) with
  | some r => r
  | none => callDeepseekApiGo outcomes 0 retryCount

lemma callClaudeApiGo_eq (outcomes : Nat → ApiOutcome) :
    ∀ (fuel attempt : Nat),
      callClaudeApiGo outcomes attempt fuel
        = match firstOkReply outcomes attempt fuel with
          | some c => parseJsonResponse c
          | none => ⟨"", "", "", ""⟩
  | 0, _ => rfl
  | fuel + 1, attempt => by
    rw [callClaudeApiGo, firstOkReply]
    cases outcomes attempt with
    | okReply c => rfl
    | rateLimited => exact callClaudeApiGo_eq outcomes fuel (attempt + 1)
    | httpError code => exact callClaudeApiGo_eq outcomes fuel (attempt + 1)
    | timeout => exact callClaudeApiGo_eq outcomes fuel (attempt + 1)
    | raised => exact callClaudeApiGo_eq outcomes fuel (attempt + 1)

lemma callDeepseekApiGo_eq (outcomes : Nat → ApiOutcome) :
    ∀ (fuel attempt : Nat),
      callDeepseekApiGo outcomes attempt fuel
        = match firstOkReply outcomes attempt fuel with
          | some c => deepseekParseJsonResponse c
          | none => ⟨"", "", "", ""⟩
  | 0, _ => rfl
  | fuel + 1, attempt => by
    rw [callDeepseekApiGo, firstOkReply]
    cases outcomes attempt with
    | okReply c => rfl
    | rateLimited => exact callDeepseekApiGo_eq outcomes fuel (attempt + 1)
    | httpError code => exact callDeepseekApiGo_eq outcomes fuel (attempt + 1)
    | timeout => exact callDeepseekApiGo_eq outcomes fuel (attempt + 1)
    | raised => exact callDeepseekApiGo_eq outcomes fuel (attempt + 1)

/-- Claim C3: for every input and every behaviour of the endpoint across the
attempts — rate-limit replies, other HTTP errors, timeouts, raised
exceptions (network failure, malformed reply body), on every attempt if need
be — the extraction call is a total function returning a well-formed result:
the parse of the first successful reply, or the all-empty result once the
attempts are exhausted.  No exception reaches the caller: every failure
shape is an `ApiOutcome` consumed by the loop.  The DeepSeek variant first
consults its cache. -/
theorem C3_extract_total :
    (∀ (outcomes : Nat → ApiOutcome) (retryCount : Nat),
      callClaudeApi outcomes retryCount
        = match firstOkReply outcomes 0 retryCount with
          | some c => parseJsonResponse c
          | none => ⟨"", "", "", ""⟩)
    ∧ (∀ (cache : String × String × String → Option DeepseekResult)
        (title location description : String) (outcomes : Nat → ApiOutcome)
        (retryCount : Nat),
      callDeepseekApi cache title location description outcomes retryCount
        = match cache (title, location, description.take 500) with
          | some r => r
          | none =>
            match firstOkReply outcomes 0 retryCount with
            | some c => deepseekParseJsonResponse c
            | none => ⟨"", "", "", ""⟩) := by
  constructor
  · intro outcomes retryCount
    exact callClaudeApiGo_eq outcomes retryCount 0
  · intro cache title location description outcomes retryCount
    unfold callDeepseekApi
    cases cache (title, location, description.take 500) with
    | some r => rfl
    | none => exact callDeepseekApiGo_eq outcomes retryCount 0

/-- A character that may appear verbatim inside a JSON string without
escaping: not a quote, not a backslash, not a control character. -/
def plainChar (c : Char) : Bool :=
  !(c == '"') && !(c == '\\') && !(decide (c.toNat < 32))

/-- A field value that serializes into a JSON string verbatim. -/
def plainValue (s : String) : Bool := s.data.all plainChar

/-- One `"key": "value"` member of the canonical four-field reply. -/
def renderMember (k v : String) : List Char :=
  '"' :: (k.data ++ ('"' :: ':' :: ' ' :: '"' :: (v.data ++ ['"'])))

/-- The canonical well-formed four-field reply the extraction service is
instructed to produce, character-list form. -/
def mkFourFieldReplyChars (v1 v2 v3 v4 : String) : List Char :=
  '\x7b' :: (renderMember "Submission Deadline" v1 ++ ',' :: ' ' ::
    (renderMember "Submission Fees" v2 ++ ',' :: ' ' ::
      (renderMember "Registration Fees" v3 ++ ',' :: ' ' ::
        (renderMember "Continent" v4 ++ ['\x7d']))))

/-- The canonical well-formed four-field reply, as a `String`. -/
def mkFourFieldReply (v1 v2 v3 v4 : String) : String :=
  String.mk (mkFourFieldReplyChars v1 v2 v3 v4)

lemma skipWs_cons_neg {c : Char} {t : List Char} (h : jsonWs c = false) :
    skipWs (c :: t) = c :: t := by
  unfold skipWs
  rw [List.dropWhile_cons_of_neg]
  simp [h]

lemma skipWs_cons_pos {c : Char} {t : List Char} (h : jsonWs c = true) :
    skipWs (c :: t) = skipWs t := by
  unfold skipWs
  rw [List.dropWhile_cons_of_pos h]

lemma readStr_plain :
    ∀ (v rest : List Char), v.all plainChar = true →
      readStr (v ++ '"' :: rest) = some (v, rest)
  | [], rest, _ => by simp [readStr]
  | c :: v', rest, h => by
    rw [List.all_cons, Bool.and_eq_true] at h
    have hc := h.1
    rw [plainChar, Bool.and_eq_true, Bool.and_eq_true] at hc
    rw [List.cons_append, readStr]
    rw [if_neg (by simp [Bool.not_eq_true'] at hc; simp [hc.1.1]),
      if_neg (by simp [Bool.not_eq_true'] at hc; simp [hc.1.2, hc.2]),
      readStr_plain v' rest h.2]

lemma parseMembers_ws_cons {c : Char} (h : jsonWs c = true) :
    ∀ (f : Nat) (l : List Char), parseMembers f (c :: l) = parseMembers f l := by
  intro f l
  cases f with
  | zero => rfl
  | succ n => simp only [parseMembers, skipWs_cons_pos h]

lemma parseMembers_render_last (f : Nat) (k v : String) (r : List Char)
    (hk : plainValue k = true) (hv : plainValue v = true) :
    parseMembers (f + 1) (renderMember k v ++ '\x7d' :: r) = some ([(k, v)], r) := by
  have hkd : k.data.all plainChar = true := hk
  have hvd : v.data.all plainChar = true := hv
  simp only [renderMember, List.cons_append, List.append_assoc, List.nil_append]
  rw [parseMembers, skipWs_cons_neg (by decide)]
  simp only []
  rw [if_pos (by decide),
    readStr_plain k.data (':' :: ' ' :: '"' :: (v.data ++ '"' :: '\x7d' :: r)) hkd]
  simp only []
  rw [skipWs_cons_neg (by decide)]
  simp only []
  rw [if_pos (by decide), skipWs_cons_pos (by decide), skipWs_cons_neg (by decide)]
  simp only []
  rw [if_pos (by decide), readStr_plain v.data ('\x7d' :: r) hvd]
  simp only []
  rw [skipWs_cons_neg (by decide)]
  simp only []
  rw [if_neg (by decide), if_pos (by decide)]

lemma parseMembers_render_cons (f : Nat) (k v : String) (rest : List Char)
    (hk : plainValue k = true) (hv : plainValue v = true) :
    parseMembers (f + 1) (renderMember k v ++ ',' :: ' ' :: rest)
      = (parseMembers f rest).map fun pr => ((k, v) :: pr.1, pr.2) := by
  have hkd : k.data.all plainChar = true := hk
  have hvd : v.data.all plainChar = true := hv
  simp only [renderMember, List.cons_append, List.append_assoc, List.nil_append]
  rw [parseMembers, skipWs_cons_neg (by decide)]
  simp only []
  rw [if_pos (by decide),
    readStr_plain k.data (':' :: ' ' :: '"' :: (v.data ++ '"' :: ',' :: ' ' :: rest)) hkd]
  simp only []
  rw [skipWs_cons_neg (by decide)]
  simp only []
  rw [if_pos (by decide), skipWs_cons_pos (by decide), skipWs_cons_neg (by decide)]
  simp only []
  rw [if_pos (by decide), readStr_plain v.data (',' :: ' ' :: rest) hvd]
  simp only []
  rw [skipWs_cons_neg (by decide)]
  simp only []
  rw [if_pos (by decide), parseMembers_ws_cons (by decide) f rest]
  cases parseMembers f rest with
  | none => rfl
  | some pr =>
    obtain ⟨ps, r'⟩ := pr
    rfl

lemma parseMembers_fourMembers (f : Nat) (v1 v2 v3 v4 : String) (r : List Char)
    (h1 : plainValue v1 = true) (h2 : plainValue v2 = true)
    (h3 : plainValue v3 = true) (h4 : plainValue v4 = true) :
    parseMembers (f + 4)
      (renderMember "Submission Deadline" v1 ++ ',' :: ' ' ::
        (renderMember "Submission Fees" v2 ++ ',' :: ' ' ::
          (renderMember "Registration Fees" v3 ++ ',' :: ' ' ::
            (renderMember "Continent" v4 ++ '\x7d' :: r))))
      = some ([("Submission Deadline", v1), ("Submission Fees", v2),
          ("Registration Fees", v3), ("Continent", v4)], r) := by
  rw [show f + 4 = (f + 3) + 1 by omega,
    parseMembers_render_cons (f + 3) _ v1 _ (by decide) h1,
    show f + 3 = (f + 2) + 1 by omega,
    parseMembers_render_cons (f + 2) _ v2 _ (by decide) h2,
    show f + 2 = (f + 1) + 1 by omega,
    parseMembers_render_cons (f + 1) _ v3 _ (by decide) h3,
    parseMembers_render_last f _ v4 _ (by decide) h4]
  rfl

/-- The member chain of the canonical reply (everything after the opening
brace, including the closing brace). -/
def fourMembersChars (v1 v2 v3 v4 : String) : List Char :=
  renderMember "Submission Deadline" v1 ++ ',' :: ' ' ::
    (renderMember "Submission Fees" v2 ++ ',' :: ' ' ::
      (renderMember "Registration Fees" v3 ++ ',' :: ' ' ::
        (renderMember "Continent" v4 ++ ['\x7d'])))

lemma mkFourFieldReplyChars_eq (v1 v2 v3 v4 : String) :
    mkFourFieldReplyChars v1 v2 v3 v4 = '\x7b' :: fourMembersChars v1 v2 v3 v4 := rfl

lemma fourMembersChars_parse (v1 v2 v3 v4 : String)
    (h1 : plainValue v1 = true) (h2 : plainValue v2 = true)
    (h3 : plainValue v3 = true) (h4 : plainValue v4 = true) :
    parseMembers ((fourMembersChars v1 v2 v3 v4).length + 2)
        (fourMembersChars v1 v2 v3 v4)
      = some ([("Submission Deadline", v1), ("Submission Fees", v2),
          ("Registration Fees", v3), ("Continent", v4)], []) := by
  have hge : 2 ≤ (fourMembersChars v1 v2 v3 v4).length := by
    simp [fourMembersChars, renderMember]
  rw [show (fourMembersChars v1 v2 v3 v4).length + 2
      = ((fourMembersChars v1 v2 v3 v4).length - 2) + 4 by omega]
  exact parseMembers_fourMembers _ v1 v2 v3 v4 [] h1 h2 h3 h4

lemma jsonLoadsFlat_shape (R : List Char) (ps : List (String × String))
    (hhead : R.head? = some '"')
    (hpm : parseMembers (R.length + 2) R = some (ps, [])) :
    jsonLoadsFlat ('\x7b' :: R) = some ps := by
  cases R with
  | nil => simp at hhead
  | cons c X =>
    rw [List.head?_cons, Option.some.injEq] at hhead
    subst hhead
    unfold jsonLoadsFlat
    rw [skipWs_cons_neg (by decide)]
    simp only []
    rw [if_pos (by decide), skipWs_cons_neg (by decide)]
    simp only []
    rw [if_neg (by decide)]
    rw [show ('\x7b' :: '"' :: X).length + 1 = ('"' :: X).length + 2 by simp]
    rw [hpm]
    simp [skipWs]

lemma jsonLoadsFlat_mkReply (v1 v2 v3 v4 : String)
    (h1 : plainValue v1 = true) (h2 : plainValue v2 = true)
    (h3 : plainValue v3 = true) (h4 : plainValue v4 = true) :
    jsonLoadsFlat (mkFourFieldReplyChars v1 v2 v3 v4)
      = some [("Submission Deadline", v1), ("Submission Fees", v2),
          ("Registration Fees", v3), ("Continent", v4)] := by
  rw [mkFourFieldReplyChars_eq]
  exact jsonLoadsFlat_shape _ _ (by simp [fourMembersChars, renderMember])
    (fourMembersChars_parse v1 v2 v3 v4 h1 h2 h3 h4)

lemma jsonWs_isPySpace {c : Char} (h : jsonWs c = true) : isPySpace c = true := by
  have h' := h
  simp only [jsonWs, Bool.or_eq_true, beq_iff_eq] at h'
  rcases h' with ((h' | h') | h') | h' <;> subst h' <;> decide

lemma stripLeft_id {l : List Char}
    (h : (l.head?.all fun c => !(isPySpace c)) = true) : stripLeft l = l := by
  cases l with
  | nil => rfl
  | cons c t =>
    rw [List.head?_cons, Option.all_some, Bool.not_eq_true'] at h
    unfold stripLeft
    rw [List.dropWhile_cons_of_neg]
    simp [h]

lemma stripRight_id :
    ∀ {l : List Char}, (l.getLast?.all fun c => !(isPySpace c)) = true →
      stripRight l = l
  | [], _ => rfl
  | [c], h => by
    simp only [List.getLast?_singleton, Option.all_some, Bool.not_eq_true'] at h
    simp [stripRight, h]
  | c :: d :: t, h => by
    rw [List.getLast?_cons_cons] at h
    have ih := stripRight_id h
    rw [stripRight, ih]

lemma stripChars_id {l : List Char}
    (hh : (l.head?.all fun c => !(isPySpace c)) = true)
    (hl : (l.getLast?.all fun c => !(isPySpace c)) = true) : stripChars l = l := by
  unfold stripChars
  rw [stripLeft_id hh, stripRight_id hl]

lemma skipWs_ne_nil :
    ∀ {l : List Char}, l ≠ [] →
      (l.getLast?.all fun c => !(isPySpace c)) = true → skipWs l ≠ []
  | [], hne, _ => absurd rfl hne
  | c :: t, _, h => by
    by_cases hc : jsonWs c = true
    · cases t with
      | nil =>
        exfalso
        simp only [List.getLast?_singleton, Option.all_some, Bool.not_eq_true'] at h
        rw [jsonWs_isPySpace hc] at h
        exact Bool.noConfusion h
      | cons d t' =>
        rw [List.getLast?_cons_cons] at h
        rw [skipWs_cons_pos hc]
        exact skipWs_ne_nil (by simp) h
    · rw [skipWs_cons_neg (Bool.not_eq_true _ ▸ Bool.eq_false_iff.mpr hc)]
      simp

lemma splitOnChar_ne_nil (sep : Char) : ∀ (l : List Char), splitOnChar sep l ≠ []
  | [] => by simp [splitOnChar]
  | c :: t => by
    have := splitOnChar_ne_nil sep t
    unfold splitOnChar
    cases h : splitOnChar sep t with
    | nil => exact absurd h this
    | cons s rest =>
      by_cases hc : (c == sep) = true
      · simp [hc]
      · simp [hc]

lemma splitOnChar_cons (sep c : Char) (t : List Char) :
    splitOnChar sep (c :: t)
      = match splitOnChar sep t with
        | [] => [[]]
        | s :: rest => if c == sep then [] :: s :: rest else (c :: s) :: rest := rfl

lemma splitOnChar_append_cons (sep : Char) :
    ∀ (x y : List Char),
      splitOnChar sep (x ++ sep :: y) = splitOnChar sep x ++ splitOnChar sep y
  | [], y => by
    rw [List.nil_append, splitOnChar_cons]
    cases h : splitOnChar sep y with
    | nil => exact absurd h (splitOnChar_ne_nil sep y)
    | cons s rest => simp [splitOnChar]
  | c :: x', y => by
    have ih := splitOnChar_append_cons sep x' y
    rw [List.cons_append, splitOnChar_cons sep c (x' ++ sep :: y),
      splitOnChar_cons sep c x', ih]
    cases hx : splitOnChar sep x' with
    | nil => exact absurd hx (splitOnChar_ne_nil sep x')
    | cons s rest =>
      by_cases hc : (c == sep) = true
      · simp [hc]
      · simp [hc]

lemma splitOnChar_no_sep (sep : Char) :
    ∀ (l : List Char), (∀ c ∈ l, (c == sep) = false) → splitOnChar sep l = [l]
  | [], _ => rfl
  | c :: t, h => by
    have ih := splitOnChar_no_sep sep t fun d hd => h d (List.mem_cons_of_mem c hd)
    unfold splitOnChar
    rw [ih]
    simp [h c (List.mem_cons_self c t)]

lemma splitOnChar_head_ne_nil (sep : Char) (l : List Char) :
    splitOnChar sep l ≠ [] := splitOnChar_ne_nil sep l

lemma joinChar_splitOnChar (sep : Char) :
    ∀ (l : List Char), joinChar sep (splitOnChar sep l) = l
  | [] => rfl
  | c :: t => by
    have ih := joinChar_splitOnChar sep t
    rw [splitOnChar_cons]
    cases hx : splitOnChar sep t with
    | nil => exact absurd hx (splitOnChar_ne_nil sep t)
    | cons s rest =>
      rw [hx] at ih
      show joinChar sep (if (c == sep) = true then [] :: s :: rest
        else (c :: s) :: rest) = c :: t
      by_cases hc : (c == sep) = true
      · rw [if_pos hc]
        have hcs : c = sep := beq_iff_eq.mp hc
        subst hcs
        show joinChar c ([] :: s :: rest) = c :: t
        rw [joinChar, List.nil_append, ih]
      · rw [if_neg hc]
        cases rest with
        | nil =>
          show joinChar sep [c :: s] = c :: t
          rw [show joinChar sep [c :: s] = c :: s from rfl]
          rw [show joinChar sep [s] = s from rfl] at ih
          rw [ih]
        | cons r rest' =>
          show joinChar sep ((c :: s) :: r :: rest') = c :: t
          rw [joinChar, List.cons_append]
          rw [show joinChar sep (s :: r :: rest') = s ++ sep :: joinChar sep (r :: rest')
            from rfl] at ih
          rw [ih]

lemma stripFence_wrap (f m g : List Char)
    (hf : ∀ c ∈ f, (c == '\n') = false) (hg : ∀ c ∈ g, (c == '\n') = false) :
    stripFence (f ++ '\n' :: (m ++ '\n' :: g)) = m := by
  unfold stripFence
  rw [splitOnChar_append_cons '\n' f (m ++ '\n' :: g),
    splitOnChar_append_cons '\n' m g,
    splitOnChar_no_sep '\n' f hf, splitOnChar_no_sep '\n' g hg]
  rw [show ([f] ++ (splitOnChar '\n' m ++ [g])).drop 1 = splitOnChar '\n' m ++ [g] from rfl]
  rw [List.dropLast_concat, joinChar_splitOnChar]

lemma preprocessReply_id {l : List Char} (hstrip : stripChars l = l)
    (hfence : startsWithChars l "```".data = false) :
    preprocessReply l = l := by
  have h2 : startsWithChars l "```json".data = false := by
    cases hsw : startsWithChars l "```json".data with
    | false => rfl
    | true =>
      have := isPrefixOf_trans "```".data "```json".data l (by decide) hsw
      rw [show ("```".data.isPrefixOf l) = startsWithChars l "```".data from rfl,
        hfence] at this
      exact Bool.noConfusion this
  simp [preprocessReply, hstrip, hfence, h2]

lemma preprocessReply_fenced {l : List Char} (hstrip : stripChars l = l)
    (h1 : startsWithChars l "```".data = true)
    (h2 : endsWithChars l "```".data = true) :
    preprocessReply l = stripFence l := by
  simp [preprocessReply, hstrip, h1, h2]

lemma mkFourFieldReplyChars_concat (v1 v2 v3 v4 : String) :
    mkFourFieldReplyChars v1 v2 v3 v4
      = ('\x7b' :: (renderMember "Submission Deadline" v1 ++ ',' :: ' ' ::
          (renderMember "Submission Fees" v2 ++ ',' :: ' ' ::
            (renderMember "Registration Fees" v3 ++ ',' :: ' ' ::
              renderMember "Continent" v4)))) ++ ['\x7d'] := by
  simp [mkFourFieldReplyChars, fourMembersChars, List.append_assoc]

lemma mkFourFieldReplyChars_head (v1 v2 v3 v4 : String) :
    (mkFourFieldReplyChars v1 v2 v3 v4).head? = some '\x7b' := rfl

lemma mkFourFieldReplyChars_getLast (v1 v2 v3 v4 : String) :
    (mkFourFieldReplyChars v1 v2 v3 v4).getLast? = some '\x7d' := by
  rw [mkFourFieldReplyChars_concat, List.getLast?_concat]

lemma mkFourFieldReplyChars_strip (v1 v2 v3 v4 : String) :
    stripChars (mkFourFieldReplyChars v1 v2 v3 v4)
      = mkFourFieldReplyChars v1 v2 v3 v4 :=
  stripChars_id (by rw [mkFourFieldReplyChars_head]; rfl)
    (by rw [mkFourFieldReplyChars_getLast]; rfl)

lemma mkFourFieldReplyChars_noFence (v1 v2 v3 v4 : String) :
    startsWithChars (mkFourFieldReplyChars v1 v2 v3 v4) "```".data = false := by
  rw [mkFourFieldReplyChars_eq]
  show (("```".data).isPrefixOf ('\x7b' :: fourMembersChars v1 v2 v3 v4)) = false
  rw [show "```".data = '`' :: '`' :: '`' :: [] from rfl]
  simp [List.isPrefixOf]

/-- A reply wrapped in markdown code-fence markers:
three backticks and `json`, newline, payload, newline, three backticks. -/
def fenceWrapChars (m : List Char) : List Char :=
  "```json".data ++ '\n' :: (m ++ '\n' :: "```".data)

lemma fenceWrapChars_head (m : List Char) : (fenceWrapChars m).head? = some '`' := rfl

lemma fenceWrapChars_getLast (m : List Char) :
    (fenceWrapChars m).getLast? = some '`' := by
  rw [fenceWrapChars,
    show ('\n' :: "```".data : List Char) = ['\n', '`', '`'] ++ ['`'] from rfl,
    ← List.append_assoc m, ← List.cons_append, ← List.append_assoc,
    List.getLast?_concat]

lemma fenceWrapChars_strip (m : List Char) :
    stripChars (fenceWrapChars m) = fenceWrapChars m :=
  stripChars_id (by rw [fenceWrapChars_head]; rfl)
    (by rw [fenceWrapChars_getLast]; rfl)

lemma fenceWrapChars_startsWith (m : List Char) :
    startsWithChars (fenceWrapChars m) "```".data = true := rfl

lemma fenceWrapChars_endsWith (m : List Char) :
    endsWithChars (fenceWrapChars m) "```".data = true := by
  rw [endsWithChars, fenceWrapChars,
    show "```json".data = ['`', '`', '`', 'j', 's', 'o', 'n'] from rfl,
    show "```".data = ['`', '`', '`'] from rfl]
  simp [List.isPrefixOf]

lemma stripFence_fenceWrap (m : List Char) : stripFence (fenceWrapChars m) = m := by
  rw [fenceWrapChars]
  exact stripFence_wrap "```json".data m "```".data (by decide) (by decide)

lemma parseJsonResponseChars_strict (v1 v2 v3 v4 : String)
    (h1 : plainValue v1 = true) (h2 : plainValue v2 = true)
    (h3 : plainValue v3 = true) (h4 : plainValue v4 = true) :
    parseJsonResponseChars (mkFourFieldReplyChars v1 v2 v3 v4)
      = ⟨cleanField v1, cleanField v2, cleanField v3, cleanField v4⟩ := by
  simp only [parseJsonResponseChars]
  rw [preprocessReply_id (mkFourFieldReplyChars_strip v1 v2 v3 v4)
      (mkFourFieldReplyChars_noFence v1 v2 v3 v4),
    jsonLoadsFlat_mkReply v1 v2 v3 v4 h1 h2 h3 h4]
  rfl

lemma parseJsonResponseChars_fenced (v1 v2 v3 v4 : String)
    (h1 : plainValue v1 = true) (h2 : plainValue v2 = true)
    (h3 : plainValue v3 = true) (h4 : plainValue v4 = true) :
    parseJsonResponseChars (fenceWrapChars (mkFourFieldReplyChars v1 v2 v3 v4))
      = ⟨cleanField v1, cleanField v2, cleanField v3, cleanField v4⟩ := by
  simp only [parseJsonResponseChars]
  rw [preprocessReply_fenced (fenceWrapChars_strip _) (fenceWrapChars_startsWith _)
      (fenceWrapChars_endsWith _),
    stripFence_fenceWrap,
    jsonLoadsFlat_mkReply v1 v2 v3 v4 h1 h2 h3 h4]
  rfl

lemma jsonLoadsFlat_shape_rest (R : List Char) (ps : List (String × String))
    (rest : List Char) (hhead : R.head? = some '"')
    (hpm : parseMembers (R.length + 2) R = some (ps, rest)) :
    jsonLoadsFlat ('\x7b' :: R) = if (skipWs rest).isEmpty then some ps else none := by
  cases R with
  | nil => simp at hhead
  | cons c X =>
    rw [List.head?_cons, Option.some.injEq] at hhead
    subst hhead
    unfold jsonLoadsFlat
    rw [skipWs_cons_neg (by decide)]
    simp only []
    rw [if_pos (by decide), skipWs_cons_neg (by decide)]
    simp only []
    rw [if_neg (by decide)]
    rw [show ('\x7b' :: '"' :: X).length + 1 = ('"' :: X).length + 2 by simp]
    rw [hpm]

lemma fourMembersChars_append_parse (v1 v2 v3 v4 : String) (post : List Char)
    (h1 : plainValue v1 = true) (h2 : plainValue v2 = true)
    (h3 : plainValue v3 = true) (h4 : plainValue v4 = true) :
    parseMembers ((fourMembersChars v1 v2 v3 v4 ++ post).length + 2)
        (fourMembersChars v1 v2 v3 v4 ++ post)
      = some ([("Submission Deadline", v1), ("Submission Fees", v2),
          ("Registration Fees", v3), ("Continent", v4)], post) := by
  have heq : fourMembersChars v1 v2 v3 v4 ++ post
      = renderMember "Submission Deadline" v1 ++ ',' :: ' ' ::
          (renderMember "Submission Fees" v2 ++ ',' :: ' ' ::
            (renderMember "Registration Fees" v3 ++ ',' :: ' ' ::
              (renderMember "Continent" v4 ++ '\x7d' :: post))) := by
    simp [fourMembersChars, List.append_assoc]
  have hge : 2 ≤ (fourMembersChars v1 v2 v3 v4 ++ post).length := by
    simp [fourMembersChars, renderMember]
  rw [show (fourMembersChars v1 v2 v3 v4 ++ post).length + 2
      = ((fourMembersChars v1 v2 v3 v4 ++ post).length - 2) + 4 by omega, heq]
  exact parseMembers_fourMembers _ v1 v2 v3 v4 post h1 h2 h3 h4

lemma fourMembersChars_head (v1 v2 v3 v4 : String) (post : List Char) :
    (fourMembersChars v1 v2 v3 v4 ++ post).head? = some '"' := by
  simp [fourMembersChars, renderMember]

lemma jsonWs_eq_false_of_not_pySpace {c : Char} (h : isPySpace c = false) :
    jsonWs c = false := by
  cases hj : jsonWs c with
  | false => rfl
  | true => rw [jsonWs_isPySpace hj] at h; exact Bool.noConfusion h

lemma jsonLoadsFlat_head_not_brace {c : Char} {t : List Char}
    (hws : isPySpace c = false) (hbr : (c == '\x7b') = false) :
    jsonLoadsFlat (c :: t) = none := by
  unfold jsonLoadsFlat
  rw [skipWs_cons_neg (jsonWs_eq_false_of_not_pySpace hws)]
  simp [hbr]

lemma skipWs_isEmpty_false {l : List Char} (hne : l ≠ [])
    (hlast : (l.getLast?.all fun c => !(isPySpace c)) = true) :
    (skipWs l).isEmpty = false := by
  have := skipWs_ne_nil hne hlast
  cases h : skipWs l with
  | nil => exact absurd h this
  | cons a b => rfl

lemma jsonLoadsFlat_payload_append (v1 v2 v3 v4 : String) (post : List Char)
    (h1 : plainValue v1 = true) (h2 : plainValue v2 = true)
    (h3 : plainValue v3 = true) (h4 : plainValue v4 = true)
    (hpost : post ≠ [])
    (hpostL : (post.getLast?.all fun c => !(isPySpace c)) = true) :
    jsonLoadsFlat (mkFourFieldReplyChars v1 v2 v3 v4 ++ post) = none := by
  rw [mkFourFieldReplyChars_eq, List.cons_append]
  rw [jsonLoadsFlat_shape_rest (fourMembersChars v1 v2 v3 v4 ++ post) _ post
    (fourMembersChars_head v1 v2 v3 v4 post)
    (fourMembersChars_append_parse v1 v2 v3 v4 post h1 h2 h3 h4)]
  rw [skipWs_isEmpty_false hpost hpostL]
  rfl

lemma braceSubstring_wrapped (pre post : List Char) (v1 v2 v3 v4 : String)
    (hpreB : pre.all (fun c => !(c == '\x7b')) = true)
    (hpostB : post.all (fun c => !(c == '\x7d')) = true) :
    braceSubstring (pre ++ (mkFourFieldReplyChars v1 v2 v3 v4 ++ post))
      = some (mkFourFieldReplyChars v1 v2 v3 v4) := by
  have hfind : pyFindChar (pre ++ (mkFourFieldReplyChars v1 v2 v3 v4 ++ post)) '\x7b'
      = some pre.length := by
    unfold pyFindChar
    rw [List.findIdx?_append]
    have hnone : pre.findIdx? (fun x => x == '\x7b') = none := by
      rw [List.findIdx?_eq_none_iff]
      intro x hx
      have := List.all_eq_true.mp hpreB x hx
      simpa using this
    rw [hnone, mkFourFieldReplyChars_eq, List.cons_append, List.findIdx?_cons]
    simp
  have hrfind : pyRFindChar (pre ++ (mkFourFieldReplyChars v1 v2 v3 v4 ++ post)) '\x7d'
      = some ((pre ++ (mkFourFieldReplyChars v1 v2 v3 v4 ++ post)).length - 1
          - post.length) := by
    unfold pyRFindChar
    rw [List.reverse_append, List.reverse_append]
    have hpostNone : post.reverse.findIdx? (fun x => x == '\x7d') = none := by
      rw [List.findIdx?_eq_none_iff]
      intro x hx
      have := List.all_eq_true.mp hpostB x (List.mem_reverse.mp hx)
      simpa using this
    have hPrev : (mkFourFieldReplyChars v1 v2 v3 v4).reverse.findIdx?
        (fun x => x == '\x7d') = some 0 := by
      rw [mkFourFieldReplyChars_concat, List.reverse_append]
      rw [show (['\x7d'] : List Char).reverse = ['\x7d'] from rfl, List.cons_append,
        List.findIdx?_cons]
      simp
    rw [List.findIdx?_append, List.findIdx?_append, hpostNone, hPrev]
    simp
  unfold braceSubstring
  rw [hfind, hrfind]
  simp only []
  have hL : (pre ++ (mkFourFieldReplyChars v1 v2 v3 v4 ++ post)).length
      = pre.length + ((mkFourFieldReplyChars v1 v2 v3 v4).length + post.length) := by
    simp
  have hP1 : 1 ≤ (mkFourFieldReplyChars v1 v2 v3 v4).length := by
    rw [mkFourFieldReplyChars_eq]
    simp
  rw [show (pre ++ (mkFourFieldReplyChars v1 v2 v3 v4 ++ post)).length - 1 - post.length
        + 1 - pre.length
      = (mkFourFieldReplyChars v1 v2 v3 v4).length by omega]
  rw [List.drop_left, List.take_left]

lemma parseJsonResponseChars_wrapped (pre post : List Char) (v1 v2 v3 v4 : String)
    (h1 : plainValue v1 = true) (h2 : plainValue v2 = true)
    (h3 : plainValue v3 = true) (h4 : plainValue v4 = true)
    (hpreB : pre.all (fun c => !(c == '\x7b')) = true)
    (hpostB : post.all (fun c => !(c == '\x7d')) = true)
    (hpreH : (pre.head?.all fun c => !(isPySpace c)) = true)
    (hpostL : (post.getLast?.all fun c => !(isPySpace c)) = true)
    (hfence : startsWithChars (pre ++ (mkFourFieldReplyChars v1 v2 v3 v4 ++ post))
        "```".data = false) :
    parseJsonResponseChars (pre ++ (mkFourFieldReplyChars v1 v2 v3 v4 ++ post))
      = ⟨cleanField v1, cleanField v2, cleanField v3, cleanField v4⟩ := by
  have hhead : ((pre ++ (mkFourFieldReplyChars v1 v2 v3 v4 ++ post)).head?.all
      fun c => !(isPySpace c)) = true := by
    cases pre with
    | nil =>
      rw [List.nil_append, mkFourFieldReplyChars_eq, List.cons_append, List.head?_cons]
      rfl
    | cons c t =>
      rw [List.cons_append, List.head?_cons]
      rw [List.head?_cons] at hpreH
      exact hpreH
  have hlast : ((pre ++ (mkFourFieldReplyChars v1 v2 v3 v4 ++ post)).getLast?.all
      fun c => !(isPySpace c)) = true := by
    rw [List.getLast?_append, List.getLast?_append]
    cases hp : post.getLast? with
    | some c =>
      rw [hp] at hpostL
      exact hpostL
    | none =>
      rw [mkFourFieldReplyChars_getLast]
      rfl
  have hstrip := stripChars_id hhead hlast
  have hpp := preprocessReply_id hstrip hfence
  simp only [parseJsonResponseChars]
  rw [hpp]
  cases pre with
  | nil =>
    rw [List.nil_append]
    by_cases hpost0 : post = []
    · rw [hpost0, List.append_nil, jsonLoadsFlat_mkReply v1 v2 v3 v4 h1 h2 h3 h4]
      rfl
    · rw [jsonLoadsFlat_payload_append v1 v2 v3 v4 post h1 h2 h3 h4 hpost0 hpostL]
      have hb := braceSubstring_wrapped [] post v1 v2 v3 v4 (by rfl) hpostB
      rw [List.nil_append] at hb
      rw [hb]
      simp only [Option.some_bind]
      rw [jsonLoadsFlat_mkReply v1 v2 v3 v4 h1 h2 h3 h4]
      rfl
  | cons c t =>
    have hws : isPySpace c = false := by
      rw [List.head?_cons, Option.all_some, Bool.not_eq_true'] at hpreH
      exact hpreH
    have hbr : (c == '\x7b') = false := by
      have := List.all_eq_true.mp hpreB c (List.mem_cons_self c t)
      simpa using this
    rw [List.cons_append, jsonLoadsFlat_head_not_brace hws hbr]
    have hb := braceSubstring_wrapped (c :: t) post v1 v2 v3 v4 hpreB hpostB
    rw [List.cons_append] at hb
    rw [hb]
    simp only [Option.some_bind]
    rw [jsonLoadsFlat_mkReply v1 v2 v3 v4 h1 h2 h3 h4]
    rfl

/-- A reply wrapped in markdown code fences, `String` form. -/
def fenceWrap (s : String) : String := String.mk (fenceWrapChars s.data)

/-- Claim C5 (amended): for every well-formed four-field reply with
escape-free values, the parser recovers the four values up to the
`_clean_field` normalization (whitespace-stripped, with the placeholder
values nan/null/none/n-a becoming empty) — in particular exactly the
original values whenever they are already clean; the same holds for the
reply wrapped in code-fence markers, and for the reply surrounded by
explanatory text (brace-free before, closing-brace-free after, not starting
with a fence) via brace-boundary extraction. -/
theorem C5_reply_parsing_amended :
    (∀ v1 v2 v3 v4 : String,
      plainValue v1 = true → plainValue v2 = true →
      plainValue v3 = true → plainValue v4 = true →
      parseJsonResponse (mkFourFieldReply v1 v2 v3 v4)
        = ⟨cleanField v1, cleanField v2, cleanField v3, cleanField v4⟩)
    ∧ (∀ v1 v2 v3 v4 : String,
      plainValue v1 = true → plainValue v2 = true →
      plainValue v3 = true → plainValue v4 = true →
      parseJsonResponse (fenceWrap (mkFourFieldReply v1 v2 v3 v4))
        = ⟨cleanField v1, cleanField v2, cleanField v3, cleanField v4⟩)
    ∧ (∀ preText postText v1 v2 v3 v4 : String,
      plainValue v1 = true → plainValue v2 = true →
      plainValue v3 = true → plainValue v4 = true →
      preText.data.all (fun c => !(c == '\x7b')) = true →
      postText.data.all (fun c => !(c == '\x7d')) = true →
      (preText.data.head?.all fun c => !(isPySpace c)) = true →
      (postText.data.getLast?.all fun c => !(isPySpace c)) = true →
      startsWithChars (preText.data ++ (mkFourFieldReplyChars v1 v2 v3 v4
        ++ postText.data)) "```".data = false →
      parseJsonResponse (preText ++ mkFourFieldReply v1 v2 v3 v4 ++ postText)
        = ⟨cleanField v1, cleanField v2, cleanField v3, cleanField v4⟩) := by
  refine ⟨?_, ?_, ?_⟩
  · intro v1 v2 v3 v4 h1 h2 h3 h4
    exact parseJsonResponseChars_strict v1 v2 v3 v4 h1 h2 h3 h4
  · intro v1 v2 v3 v4 h1 h2 h3 h4
    exact parseJsonResponseChars_fenced v1 v2 v3 v4 h1 h2 h3 h4
  · intro preText postText v1 v2 v3 v4 h1 h2 h3 h4 hpreB hpostB hpreH hpostL hfence
    show parseJsonResponseChars
      ((preText.data ++ mkFourFieldReplyChars v1 v2 v3 v4) ++ postText.data) = _
    rw [List.append_assoc]
    exact parseJsonResponseChars_wrapped preText.data postText.data v1 v2 v3 v4
      h1 h2 h3 h4 hpreB hpostB hpreH hpostL hfence

set_option maxRecDepth 40000 in
/-- Counterexample to C5 as stated: a well-formed four-field reply whose
deadline value is the string None and whose fee value carries surrounding
whitespace is not recovered verbatim — `_clean_field` maps None to empty
and strips the whitespace. -/
theorem C5_reply_parsing_counterexample :
    parseJsonResponse (mkFourFieldReply "None" " $50 " "" "Europe")
      ≠ ⟨"None", " $50 ", "", "Europe"⟩
    ∧ parseJsonResponse (mkFourFieldReply "None" " $50 " "" "Europe")
      = ⟨"", "$50", "", "Europe"⟩ := by
  constructor
  · decide
  · decide

set_option maxRecDepth 40000 in
/-- Witness for C5 (amended) at concrete reply texts. -/
theorem C5_reply_parsing_witness :
    parseJsonResponse (mkFourFieldReply "2026/01/01" "$50" "$100" "Europe")
      = ⟨"2026/01/01", "$50", "$100", "Europe"⟩
    ∧ parseJsonResponse (fenceWrap (mkFourFieldReply "2026/01/01" "$50" "$100" "Europe"))
      = ⟨"2026/01/01", "$50", "$100", "Europe"⟩
    ∧ parseJsonResponse
        ("Here is the JSON: " ++ mkFourFieldReply "2026/01/01" "$50" "$100" "Europe"
          ++ " Hope that helps.")
      = ⟨"2026/01/01", "$50", "$100", "Europe"⟩ := by
  refine ⟨?_, ?_, ?_⟩
  · exact (C5_reply_parsing_amended.1 "2026/01/01" "$50" "$100" "Europe"
      (by decide) (by decide) (by decide) (by decide)).trans (by decide)
  · exact (C5_reply_parsing_amended.2.1 "2026/01/01" "$50" "$100" "Europe"
      (by decide) (by decide) (by decide) (by decide)).trans (by decide)
  · exact (C5_reply_parsing_amended.2.2 "Here is the JSON: " " Hope that helps."
      "2026/01/01" "$50" "$100" "Europe"
      (by decide) (by decide) (by decide) (by decide)
      (by decide) (by decide) (by decide) (by decide) (by decide)).trans (by decide)
